import Mathlib

/-!
# Sprite packer: extrusion and strip packing

A shallow embedding of `main.go` (package `main` of `jstewart7/packer`): the
functions `ExtrudeImageOnce`, `ExtrudeImage` and `Pack`, together with the part
of Go's `image` and `image/draw` packages they call.

Modelling decisions.
* Go `int` is `Int`.  In the loop of `Pack`, where the cursor is limited by no
  allocation, every integer result is wrapped to 64 bits (`wrapInt`).  Inside
  `ExtrudeImageOnce` and `draw.Draw` the integers are not wrapped:
  `ExtrudeImageOnce` returns only after `image.NewNRGBA` has allocated its
  image, whose size check keeps the coordinates far from 2^63, and `draw.Draw`
  writes only inside the rectangle it is given and inside its destination.
* A function that can fail is a pair: the value it returns when it returns
  (`NewNRGBA`, `ExtrudeImageOnce`, `ExtrudeImage`, `Pack`) and the condition
  under which it does not return (`NewNRGBA_fails`, `ExtrudeImageOnce_fails`,
  `ExtrudeImage_fails`, `Pack_fails`).  The failures are those of
  `image.NewNRGBA`: the panic of its size check, and a pixel buffer larger than
  the runtime can allocate; the latter depends on the machine and is the
  parameter `memory` (in bytes).
* A colour is the non-premultiplied RGBA value that ends up in an
  `*image.NRGBA`; the stores `Set` and `draw.Draw (.., draw.Src)` transport it
  unchanged.  An `Image` answers colours already converted to that model; the
  conversion itself is not modelled.
* `image.Image` is an interface: bounds plus a total `At`.  The model covers
  the images that answer a colour at every point; an `*image.Paletted` with an
  empty palette answers the nil colour and is not an `Image` of the model.
  `*image.NRGBA` is a rectangle plus a pixel store; its `At` answers the zero
  colour outside the rectangle, its `Set` ignores writes outside the
  rectangle.  What another image type answers outside its bounds is its own
  affair (`*image.Gray` answers `color.Gray{0}`, which is opaque black).
* `for i := 0; i < n; i++` is a left fold over `List.range n.toNat`.
* `map[string]V` is an association list with unique keys.
* A `float64` field holds the exact value of the float, which is an integer
  here; the conversion `float64(i)` rounds to 53 significant bits (`float64`).
-/

namespace Packer

/-! ## Go `int` and `float64` -/

/-- A value as a Go `int` (64 bits): wrapped into `-2^63 .. 2^63 - 1`.
Wrapping the result of a sum or a difference gives the same as wrapping every intermediate
value as well. -/
def wrapInt (v : Int) : Int :=
  (v + 9223372036854775808) % 18446744073709551616 - 9223372036854775808

/-- Go `float64(i)` for an `int` `i`, as the exact value of the result: `i` rounded to 53
significant bits, ties to the even neighbour. The result is an integer again. -/
def float64 (i : Int) : Int :=
  let a := i.natAbs
  let e := ((List.range 12).filter (fun k => decide (2 ^ (53 + k) ≤ a))).length
  let q := a / 2 ^ e
  let r := a % 2 ^ e
  let q := if 2 ^ e < 2 * r ∨ (2 * r = 2 ^ e ∧ q % 2 = 1) then q + 1 else q
  if i < 0 then -((q * 2 ^ e : Nat) : Int) else ((q * 2 ^ e : Nat) : Int)

/-! ## Go `image` package -/

/-- Colour stored in an NRGBA image: four channels. -/
structure Color where
  R : Nat
  G : Nat
  B : Nat
  A : Nat
deriving DecidableEq, Repr

/-- The zero colour: fully transparent. -/
def Color.zero : Color := ⟨0, 0, 0, 0⟩

/-- Go `image.Point`. -/
structure Point where
  X : Int
  Y : Int
deriving DecidableEq, Repr

/-- Go `image.Rectangle`: `Min` inclusive, `Max` exclusive. -/
structure Rectangle where
  Min : Point
  Max : Point
deriving DecidableEq, Repr

/-- Go `image.ZP`. -/
def ZP : Point := ⟨0, 0⟩

/-- Go `image.ZR`. -/
def ZR : Rectangle := ⟨⟨0, 0⟩, ⟨0, 0⟩⟩

/-- Go `Point.Add`. -/
def Point.Add (p q : Point) : Point := ⟨p.X + q.X, p.Y + q.Y⟩

/-- Go `Point.Sub`. -/
def Point.Sub (p q : Point) : Point := ⟨p.X - q.X, p.Y - q.Y⟩

/-- Go `Point.In`. -/
def Point.In (p : Point) (r : Rectangle) : Bool :=
  decide (r.Min.X ≤ p.X) && decide (p.X < r.Max.X) &&
    decide (r.Min.Y ≤ p.Y) && decide (p.Y < r.Max.Y)

/-- Go `image.Rect`: the rectangle with the given corners, put in canonical order. -/
def Rect (x0 y0 x1 y1 : Int) : Rectangle :=
  let (x0, x1) := if x0 > x1 then (x1, x0) else (x0, x1)
  let (y0, y1) := if y0 > y1 then (y1, y0) else (y0, y1)
  ⟨⟨x0, y0⟩, ⟨x1, y1⟩⟩

/-- Go `Rectangle.Dx`. -/
def Rectangle.Dx (r : Rectangle) : Int := r.Max.X - r.Min.X

/-- Go `Rectangle.Dy`. -/
def Rectangle.Dy (r : Rectangle) : Int := r.Max.Y - r.Min.Y

/-- Go `Rectangle.Add`. -/
def Rectangle.Add (r : Rectangle) (p : Point) : Rectangle :=
  ⟨⟨r.Min.X + p.X, r.Min.Y + p.Y⟩, ⟨r.Max.X + p.X, r.Max.Y + p.Y⟩⟩

/-- A rectangle whose four coordinates are taken as Go `int`s. -/
def wrapRect (r : Rectangle) : Rectangle :=
  ⟨⟨wrapInt r.Min.X, wrapInt r.Min.Y⟩, ⟨wrapInt r.Max.X, wrapInt r.Max.Y⟩⟩

/-- Go `Rectangle.Empty`. -/
def Rectangle.Empty (r : Rectangle) : Bool :=
  decide (r.Min.X ≥ r.Max.X) || decide (r.Min.Y ≥ r.Max.Y)

/-- Go `Rectangle.Intersect`. -/
def Rectangle.Intersect (r s : Rectangle) : Rectangle :=
  let minX := if r.Min.X < s.Min.X then s.Min.X else r.Min.X
  let minY := if r.Min.Y < s.Min.Y then s.Min.Y else r.Min.Y
  let maxX := if r.Max.X > s.Max.X then s.Max.X else r.Max.X
  let maxY := if r.Max.Y > s.Max.Y then s.Max.Y else r.Max.Y
  let r : Rectangle := ⟨⟨minX, minY⟩, ⟨maxX, maxY⟩⟩
  if r.Empty then ZR else r

/-- Go `Rectangle.Union`. -/
def Rectangle.Union (r s : Rectangle) : Rectangle :=
  if r.Empty then s
  else if s.Empty then r
  else
    let minX := if r.Min.X > s.Min.X then s.Min.X else r.Min.X
    let minY := if r.Min.Y > s.Min.Y then s.Min.Y else r.Min.Y
    let maxX := if r.Max.X < s.Max.X then s.Max.X else r.Max.X
    let maxY := if r.Max.Y < s.Max.Y then s.Max.Y else r.Max.Y
    ⟨⟨minX, minY⟩, ⟨maxX, maxY⟩⟩

/-- Go `image.Image`, as seen by this program: `Bounds()` and `At(x, y)`, for an image
that answers a colour at every point. -/
structure Image where
  Bounds : Rectangle
  At : Int → Int → Color

/-- Go `*image.NRGBA`: the rectangle and the pixel store. -/
structure NRGBA where
  Rect : Rectangle
  Pix : Int → Int → Color

/-- Go `image.NewNRGBA`, the image it returns when it returns: every pixel is the zero
colour. -/
def NewNRGBA (r : Rectangle) : NRGBA := ⟨r, fun _ _ => Color.zero⟩

/-- Go `image.NewNRGBA` does not return: it panics ("Rectangle has huge or negative
dimensions") when a side is negative or the buffer length `4 * Dx * Dy` does not fit an
`int` (`pixelBufferLength`, `mul3NonNeg` of package `image`: `4 * Dx` must fit 64 bits
unsigned and `4 * Dx * Dy` must fit an `int`), and the allocation of the buffer fails when
it is longer than `memory` bytes. -/
def NewNRGBA_fails (memory : Int) (r : Rectangle) : Bool :=
  let w := wrapInt r.Dx
  let h := wrapInt r.Dy
  decide (w < 0) || decide (h < 0) || decide (2 ^ 64 ≤ 4 * w) || decide (2 ^ 63 ≤ 4 * w * h) ||
    decide (memory < 4 * w * h)

/-- Go `(*NRGBA).At`: the zero colour outside the rectangle. -/
def NRGBA.At (p : NRGBA) (x y : Int) : Color :=
  if Point.In ⟨x, y⟩ p.Rect then p.Pix x y else Color.zero

/-- Go `(*NRGBA).Set`: a write outside the rectangle is ignored. -/
def NRGBA.Set (p : NRGBA) (x y : Int) (c : Color) : NRGBA :=
  if Point.In ⟨x, y⟩ p.Rect then
    { p with Pix := fun a b => if a = x ∧ b = y then c else p.Pix a b }
  else p

/-- An `*image.NRGBA` used as an `image.Image`. -/
def NRGBA.toImage (p : NRGBA) : Image := ⟨p.Rect, p.At⟩

/-- Go `draw.Draw(dst, r, src, sp, draw.Src)`: `r` is clipped to the
destination and to the source translated so that `sp` meets `r.Min`; `sp` moves
with the clipped corner; each pixel of the clipped rectangle is copied. -/
def Draw (dst : NRGBA) (r : Rectangle) (src : Image) (sp : Point) : NRGBA :=
  let orig := r.Min
  let r := r.Intersect dst.Rect
  let r := r.Intersect (src.Bounds.Add (orig.Sub sp))
  let dx := r.Min.X - orig.X
  let dy := r.Min.Y - orig.Y
  let sp : Point := ⟨sp.X + dx, sp.Y + dy⟩
  if r.Empty then dst
  else
    { dst with
      Pix := fun x y =>
        if Point.In ⟨x, y⟩ r then src.At (sp.X + (x - r.Min.X)) (sp.Y + (y - r.Min.Y))
        else dst.Pix x y }

/-- The loop `for i := 0; i < n; i++ { body }` over a state. -/
def forRange {σ : Type} (n : Int) (s : σ) (body : Int → σ → σ) : σ :=
  (List.range n.toNat).foldl (fun (s : σ) (i : Nat) => body (i : Int) s) s

/-! ## Go `map[string]V` -/

/-- The assignment `m[k] = v`. -/
def mapSet {V : Type} (m : List (String × V)) (k : String) (v : V) : List (String × V) :=
  (k, v) :: m.filter (fun e => e.1 != k)

/-- The read `m[k]`, with presence. -/
def mapGet {V : Type} (m : List (String × V)) (k : String) : Option V :=
  (m.find? (fun e => e.1 == k)).map (fun e => e.2)

/-- The keys of a map. -/
def mapKeys {V : Type} (m : List (String × V)) : List String := m.map (fun e => e.1)

/-! ## `main.go` -/

/-- Go `ImageData`. -/
structure ImageData where
  img : Image
  filename : String

/-- Go `SerializedRect`: each field is the exact value of the `float64`, an integer. -/
structure SerializedRect where
  X : Int
  Y : Int
  W : Int
  H : Int
deriving DecidableEq, Repr

/-- Go `SerializedPos`. -/
structure SerializedPos where
  X : Int
  Y : Int
deriving DecidableEq, Repr

/-- Go `SerializedDim`. -/
structure SerializedDim where
  W : Int
  H : Int
deriving DecidableEq, Repr

/-- Go `SerializedFrame`. -/
structure SerializedFrame where
  Frame : SerializedRect
  Rotated : Bool
  Trimmed : Bool
  SpriteSourceSize : SerializedRect
  SourceSize : SerializedDim
  Pivot : SerializedPos
deriving DecidableEq, Repr

/-- Go `SerializedSpritesheet`. -/
structure SerializedSpritesheet where
  Frames : List (String × SerializedFrame)
  Meta : List (String × String)
deriving DecidableEq, Repr

/-- Go `ExtrudeImageOnce` (main.go:119-164), the image it returns when it returns. -/
def ExtrudeImageOnce (img : Image) : Image :=
  let extrude : Int := 1
  let bounds := img.Bounds
  let newImg := NewNRGBA (Rect 0 0 (bounds.Dx + (2 * extrude)) (bounds.Dy + (2 * extrude)))
  let dstBounds := newImg.Rect
  let newImg := Draw newImg (bounds.Add ⟨extrude, extrude⟩) img ZP
  -- Outer Rows
  let ySrc : Int := 0
  let yDst : Int := 0
  let newImg := forRange bounds.Dx newImg (fun xSrc newImg =>
    let xDst := xSrc + 1
    newImg.Set xDst yDst (img.At xSrc ySrc))
  let ySrc := bounds.Dy - 1
  let yDst := dstBounds.Dy - 1
  let newImg := forRange bounds.Dx newImg (fun xSrc newImg =>
    let xDst := xSrc + 1
    newImg.Set xDst yDst (img.At xSrc ySrc))
  -- Corners
  let newImg := newImg.Set dstBounds.Min.X dstBounds.Min.Y (img.At bounds.Min.X bounds.Min.Y)
  let newImg := newImg.Set (dstBounds.Max.X - 1) dstBounds.Min.Y
    (img.At (bounds.Max.X - 1) bounds.Min.Y)
  let newImg := newImg.Set dstBounds.Min.X (dstBounds.Max.Y - 1)
    (img.At bounds.Min.X (bounds.Max.Y - 1))
  let newImg := newImg.Set (dstBounds.Max.X - 1) (dstBounds.Max.Y - 1)
    (img.At (bounds.Max.X - 1) (bounds.Max.Y - 1))
  -- Outer Columns
  let xSrc : Int := 0
  let xDst : Int := 0
  let newImg := forRange bounds.Dy newImg (fun ySrc newImg =>
    let yDst := ySrc + 1
    newImg.Set xDst yDst (img.At xSrc ySrc))
  let xSrc := bounds.Dx - 1
  let xDst := dstBounds.Dx - 1
  let newImg := forRange bounds.Dx newImg (fun ySrc newImg =>
    let yDst := ySrc + 1
    newImg.Set xDst yDst (img.At xSrc ySrc))
  newImg.toImage

/-- Go `ExtrudeImageOnce` does not return exactly when `image.NewNRGBA` does not at
main.go:122; the sum `bounds.Dx() + (2 * extrude)` is a Go `int`. -/
def ExtrudeImageOnce_fails (memory : Int) (img : Image) : Bool :=
  NewNRGBA_fails memory
    (Rect 0 0 (wrapInt (wrapInt img.Bounds.Dx + 2)) (wrapInt (wrapInt img.Bounds.Dy + 2)))

/-- Go `ExtrudeImage` (main.go:111-116), the image it returns when it returns. -/
def ExtrudeImage (img : Image) (extrude : Int) : Image :=
  forRange extrude img (fun _ img => ExtrudeImageOnce img)

/-- Go `ExtrudeImage` does not return when one of its calls of `ExtrudeImageOnce` does not:
the loop carries the image and whether a call has failed. -/
def ExtrudeImage_fails (memory : Int) (img : Image) (extrude : Int) : Bool :=
  (forRange extrude (img, false) (fun _ st =>
    if st.2 || ExtrudeImageOnce_fails memory st.1 then (st.1, true)
    else (ExtrudeImageOnce st.1, false))).2

/-- The variables of `Pack` that its loop updates. -/
structure PackState where
  data : SerializedSpritesheet
  atlas : NRGBA
  currentBounds : Rectangle
  currentPos : Point

/-- One iteration of the loop of `Pack` (main.go:69-103). The rectangles, the cursor and
the widths are Go `int`s; the fields of the frame are `float64`s. -/
def packStep (extrude : Int) (s : PackState) (imageData : ImageData) : PackState :=
  let img := imageData.img
  let origBounds := img.Bounds
  -- Extrude image
  let img := ExtrudeImage img extrude
  let extrudeBounds := img.Bounds
  let destOrigBounds :=
    wrapRect ((wrapRect (origBounds.Add s.currentPos)).Add ⟨extrude, extrude⟩)
  let destBounds := wrapRect (extrudeBounds.Add s.currentPos)
  let atlas := Draw s.atlas destBounds img ZP
  let currentPos : Point :=
    ⟨wrapInt (s.currentPos.X + wrapInt extrudeBounds.Dx), s.currentPos.Y⟩
  let currentBounds := s.currentBounds.Union destBounds
  let frame : SerializedFrame :=
    { Frame :=
        { X := float64 destOrigBounds.Min.X
          Y := float64 destOrigBounds.Min.Y
          W := float64 (wrapInt destOrigBounds.Dx)
          H := float64 (wrapInt destOrigBounds.Dy) }
      Rotated := false
      Trimmed := false
      SpriteSourceSize := ⟨0, 0, 0, 0⟩
      SourceSize := ⟨0, 0⟩
      Pivot := ⟨0, 0⟩ }
  { data := { s.data with Frames := mapSet s.data.Frames imageData.filename frame }
    atlas := atlas
    currentBounds := currentBounds
    currentPos := currentPos }

/-- The rectangle `destBounds` of one iteration of the loop of `Pack` (main.go:75, 78): the
bounds of the extruded sprite moved to the cursor. -/
def destBounds (extrude : Int) (s : PackState) (imageData : ImageData) : Rectangle :=
  wrapRect ((ExtrudeImage imageData.img extrude).Bounds.Add s.currentPos)

/-- The state of `Pack` before its loop (main.go:58-68). -/
def packInit (width height : Int) : PackState :=
  { data :=
      { Frames := []
        Meta := mapSet [] "protocol" "github.com/jstewart7/packer" }
    atlas := NewNRGBA (Rect 0 0 width height)
    currentBounds := ⟨⟨0, 0⟩, ⟨0, 0⟩⟩
    currentPos := ⟨0, 0⟩ }

/-- Go `Pack` (main.go:57-108), the pair it returns when it returns. -/
def Pack (images : List ImageData) (width height extrude : Int) :
    Image × SerializedSpritesheet :=
  let s := images.foldl (packStep extrude) (packInit width height)
  (s.atlas.toImage, s.data)

/-- Go `Pack` does not return when `image.NewNRGBA` does not for the canvas (main.go:65) or
when `ExtrudeImage` does not for one of the sprites (main.go:74). -/
def Pack_fails (memory : Int) (images : List ImageData) (width height extrude : Int) : Bool :=
  NewNRGBA_fails memory (Rect 0 0 width height) ||
    images.any (fun imageData => ExtrudeImage_fails memory imageData.img extrude)

/-! ## Reference: clamp-to-edge extrusion -/

/-- The value `clamp v lo hi`: `v` brought into the interval from `lo` to `hi`. -/
def clamp (v lo hi : Int) : Int :=
  if v < lo then lo else if hi < v then hi else v

/-- The clamp-to-edge reference of extrusion by `p`: the pixel `(x, y)` of the result is
the source pixel nearest to `(x - p, y - p)`. -/
def clampToEdge (I : Image) (p : Int) (x y : Int) : Color :=
  I.At (clamp (x - p) 0 (I.Bounds.Dx - 1)) (clamp (y - p) 0 (I.Bounds.Dy - 1))

/-! ## Test data -/

/-- An NRGBA sprite of the given size whose pixel `(x, y)` has red `x + 1`,
green `y + 1` and is opaque. -/
def gradient (w h : Int) : Image :=
  NRGBA.toImage ⟨Rect 0 0 w h, fun x y => ⟨(x + 1).toNat, (y + 1).toNat, 0, 255⟩⟩

/-- A 2 x 1 grey sprite (Go `*image.Gray`) seen through conversion to NRGBA: grey 200
inside its bounds, and `color.Gray{0}`, opaque black, outside. -/
def grayWide : Image :=
  ⟨Rect 0 0 2 1, fun x y =>
    if Point.In ⟨x, y⟩ (Rect 0 0 2 1) then ⟨200, 200, 200, 255⟩ else ⟨0, 0, 0, 255⟩⟩

/-- A 2 x 2 sub-image at (1, 1) (Go `SubImage` of an `*image.NRGBA`): pixel `(x, y)` has
red `x`, green `y` and is opaque. -/
def subImage : Image :=
  NRGBA.toImage ⟨⟨⟨1, 1⟩, ⟨3, 3⟩⟩, fun x y => ⟨x.toNat, y.toNat, 0, 255⟩⟩

/-- The sprite `wide.png`: `image.NewNRGBA(image.Rect(0, 0, 2^53 + 1, 0))`, no pixel. -/
def spriteWide : ImageData :=
  ⟨NRGBA.toImage (NewNRGBA (Rect 0 0 9007199254740993 0)), "wide.png"⟩

/-- An image `image.NewNRGBA(image.Rect(0, 0, 2^62 - 1, 0))`, no pixel. -/
def emptyWide : Image := NRGBA.toImage (NewNRGBA (Rect 0 0 4611686018427387903 0))

/-- A user-defined image type of one opaque colour, `2^62` wide and 1 high (it holds no
pixel buffer). -/
def uniformWide : Image := ⟨Rect 0 0 4611686018427387904 1, fun _ _ => ⟨7, 7, 7, 255⟩⟩

/-- The sprite `c.png`: 4 x 2. -/
def spriteC : ImageData := ⟨gradient 4 2, "c.png"⟩

/-- The sprites `a.png` (2 x 2), four times `emptyWide`, then `c.png` (4 x 2). -/
def wrapSprites : List ImageData :=
  [⟨gradient 2 2, "a.png"⟩, ⟨emptyWide, "z1.png"⟩, ⟨emptyWide, "z2.png"⟩,
    ⟨emptyWide, "z3.png"⟩, ⟨emptyWide, "z4.png"⟩, spriteC]

/-- Four sprites `uniformWide`, then a 2 x 2 sprite `b.png`. -/
def overlapSprites : List ImageData :=
  [⟨uniformWide, "u1.png"⟩, ⟨uniformWide, "u2.png"⟩, ⟨uniformWide, "u3.png"⟩,
    ⟨uniformWide, "u4.png"⟩, ⟨gradient 2 2, "b.png"⟩]

/-- A second sprite named `a.png`: 3 x 1. -/
def spriteA2 : ImageData := ⟨gradient 3 1, "a.png"⟩

/-- The sprite `a.png`: 2 x 2. -/
def spriteA : ImageData := ⟨gradient 2 2, "a.png"⟩

/-- The sprite `b.png`: 2 x 2. -/
def spriteB : ImageData := ⟨gradient 2 2, "b.png"⟩

/-! ## The stores -/

theorem Rect_of_nonneg (a b : Int) (ha : 0 ≤ a) (hb : 0 ≤ b) :
    Rect 0 0 a b = ⟨⟨0, 0⟩, ⟨a, b⟩⟩ := by
  unfold Rect
  have h1 : ¬ (0 : Int) > a := by omega
  have h2 : ¬ (0 : Int) > b := by omega
  simp [h1, h2]

theorem In_iff (x y : Int) (r : Rectangle) :
    Point.In ⟨x, y⟩ r = true ↔ r.Min.X ≤ x ∧ x < r.Max.X ∧ r.Min.Y ≤ y ∧ y < r.Max.Y := by
  simp [Point.In, and_assoc]

theorem Empty_iff (r : Rectangle) :
    r.Empty = true ↔ r.Max.X ≤ r.Min.X ∨ r.Max.Y ≤ r.Min.Y := by
  simp [Rectangle.Empty]

theorem forRange_natCast {σ : Type} (n : Nat) (s : σ) (body : Int → σ → σ) :
    forRange (n : Int) s body = (List.range n).foldl (fun (s : σ) (i : Nat) => body (i : Int) s) s := by
  simp [forRange]

theorem forRange_eq {σ : Type} (n : Int) (s : σ) (body : Int → σ → σ) :
    forRange n s body = (List.range n.toNat).foldl (fun (s : σ) (i : Nat) => body (i : Int) s) s := rfl

theorem Set_Rect (p : NRGBA) (x y : Int) (c : Color) : (p.Set x y c).Rect = p.Rect := by
  unfold NRGBA.Set
  split <;> rfl

theorem Set_Pix (p : NRGBA) (x y : Int) (c : Color) (a b : Int) :
    (p.Set x y c).Pix a b =
      if (a = x ∧ b = y) ∧ Point.In ⟨x, y⟩ p.Rect = true then c else p.Pix a b := by
  unfold NRGBA.Set
  by_cases h : Point.In ⟨x, y⟩ p.Rect = true
  · simp [h]
  · simp [h]

theorem Draw_Rect (dst : NRGBA) (r : Rectangle) (src : Image) (sp : Point) :
    (Draw dst r src sp).Rect = dst.Rect := by
  unfold Draw
  simp only
  split <;> rfl

/-- Loop writing a row: `Set (i + 1) yd (c i)` for `i < n`. -/
theorem rowLoop_Rect (n : Nat) (s : NRGBA) (yd : Int) (c : Int → Color) :
    ((List.range n).foldl (fun (s : NRGBA) (i : Nat) => NRGBA.Set s ((i : Int) + 1) yd (c i)) s).Rect = s.Rect := by
  induction n with
  | zero => rfl
  | succ k ih => rw [List.range_succ, List.foldl_append]; simp [Set_Rect, ih]

theorem rowLoop_Pix (n : Nat) (s : NRGBA) (yd : Int) (c : Int → Color) (a b : Int) :
    ((List.range n).foldl (fun (s : NRGBA) (i : Nat) => NRGBA.Set s ((i : Int) + 1) yd (c i)) s).Pix a b =
      if (b = yd ∧ 1 ≤ a ∧ a ≤ n) ∧ Point.In ⟨a, b⟩ s.Rect = true then c (a - 1)
      else s.Pix a b := by
  induction n with
  | zero =>
    have : ¬ ((b = yd ∧ 1 ≤ a ∧ a ≤ ((0 : Nat) : Int)) ∧ Point.In ⟨a, b⟩ s.Rect = true) := by
      intro h; omega
    simp only [List.range_zero, List.foldl_nil, if_neg this]
  | succ k ih =>
    rw [List.range_succ, List.foldl_append]
    simp only [List.foldl_cons, List.foldl_nil, Set_Pix, rowLoop_Rect, ih]
    by_cases h1 : a = (k : Int) + 1 ∧ b = yd
    · obtain ⟨ha, hb⟩ := h1
      subst ha; subst hb
      by_cases h2 : Point.In ⟨(k : Int) + 1, b⟩ s.Rect = true
      · simp [h2]
      · simp [h2]
    · rw [if_neg (fun h => h1 h.1)]
      by_cases h3 : (b = yd ∧ 1 ≤ a ∧ a ≤ (k : Int)) ∧ Point.In ⟨a, b⟩ s.Rect = true
      · rw [if_pos h3, if_pos]
        refine ⟨⟨h3.1.1, h3.1.2.1, ?_⟩, h3.2⟩
        push_cast; omega
      · rw [if_neg h3, if_neg]
        intro h4
        apply h3
        refine ⟨⟨h4.1.1, h4.1.2.1, ?_⟩, h4.2⟩
        have := h4.1.2.2
        push_cast at this
        have : a ≠ (k : Int) + 1 := fun e => h1 ⟨e, h4.1.1⟩
        omega

/-- Loop writing a column: `Set xd (i + 1) (c i)` for `i < n`. -/
theorem colLoop_Rect (n : Nat) (s : NRGBA) (xd : Int) (c : Int → Color) :
    ((List.range n).foldl (fun (s : NRGBA) (i : Nat) => NRGBA.Set s xd ((i : Int) + 1) (c i)) s).Rect = s.Rect := by
  induction n with
  | zero => rfl
  | succ k ih => rw [List.range_succ, List.foldl_append]; simp [Set_Rect, ih]

theorem colLoop_Pix (n : Nat) (s : NRGBA) (xd : Int) (c : Int → Color) (a b : Int) :
    ((List.range n).foldl (fun (s : NRGBA) (i : Nat) => NRGBA.Set s xd ((i : Int) + 1) (c i)) s).Pix a b =
      if (a = xd ∧ 1 ≤ b ∧ b ≤ n) ∧ Point.In ⟨a, b⟩ s.Rect = true then c (b - 1)
      else s.Pix a b := by
  induction n with
  | zero =>
    have : ¬ ((a = xd ∧ 1 ≤ b ∧ b ≤ ((0 : Nat) : Int)) ∧ Point.In ⟨a, b⟩ s.Rect = true) := by
      intro h; omega
    simp only [List.range_zero, List.foldl_nil, if_neg this]
  | succ k ih =>
    rw [List.range_succ, List.foldl_append]
    simp only [List.foldl_cons, List.foldl_nil, Set_Pix, colLoop_Rect, ih]
    by_cases h1 : a = xd ∧ b = (k : Int) + 1
    · obtain ⟨ha, hb⟩ := h1
      subst ha; subst hb
      by_cases h2 : Point.In ⟨a, (k : Int) + 1⟩ s.Rect = true
      · simp [h2]
      · simp [h2]
    · rw [if_neg (fun h => h1 h.1)]
      by_cases h3 : (a = xd ∧ 1 ≤ b ∧ b ≤ (k : Int)) ∧ Point.In ⟨a, b⟩ s.Rect = true
      · rw [if_pos h3, if_pos]
        refine ⟨⟨h3.1.1, h3.1.2.1, ?_⟩, h3.2⟩
        push_cast; omega
      · rw [if_neg h3, if_neg]
        intro h4
        apply h3
        refine ⟨⟨h4.1.1, h4.1.2.1, ?_⟩, h4.2⟩
        have := h4.1.2.2
        push_cast at this
        have : b ≠ (k : Int) + 1 := fun e => h1 ⟨h4.1.1, e⟩
        omega

theorem In_Intersect (x y : Int) (r s : Rectangle) :
    Point.In ⟨x, y⟩ (r.Intersect s) = true ↔
      Point.In ⟨x, y⟩ r = true ∧ Point.In ⟨x, y⟩ s = true := by
  simp only [Rectangle.Intersect, Empty_iff]
  split_ifs <;> simp only [In_iff, ZR] <;> omega

theorem not_In_of_Empty (x y : Int) (r : Rectangle) (h : r.Empty = true) :
    ¬ Point.In ⟨x, y⟩ r = true := by
  rw [Empty_iff] at h
  rw [In_iff]
  omega

theorem Draw_Pix (dst : NRGBA) (r : Rectangle) (src : Image) (sp : Point) (x y : Int) :
    (Draw dst r src sp).Pix x y =
      if Point.In ⟨x, y⟩ r = true ∧ Point.In ⟨x, y⟩ dst.Rect = true ∧
          Point.In ⟨x, y⟩ (src.Bounds.Add (r.Min.Sub sp)) = true
      then src.At (sp.X + (x - r.Min.X)) (sp.Y + (y - r.Min.Y))
      else dst.Pix x y := by
  unfold Draw
  simp only
  split
  · rename_i h
    have := not_In_of_Empty x y _ h
    rw [In_Intersect, In_Intersect, and_assoc] at this
    rw [if_neg this]
  · simp only [In_Intersect, and_assoc]
    split
    · congr 1 <;> omega
    · rfl

theorem forRange_row_Rect (n : Int) (s : NRGBA) (yd : Int) (c : Int → Color) :
    (forRange n s (fun i s => NRGBA.Set s (i + 1) yd (c i))).Rect = s.Rect := by
  unfold forRange
  exact rowLoop_Rect n.toNat s yd c

theorem forRange_row_Pix (n : Int) (s : NRGBA) (yd : Int) (c : Int → Color) (a b : Int) :
    (forRange n s (fun i s => NRGBA.Set s (i + 1) yd (c i))).Pix a b =
      if (b = yd ∧ 1 ≤ a ∧ a ≤ n) ∧ Point.In ⟨a, b⟩ s.Rect = true then c (a - 1)
      else s.Pix a b := by
  unfold forRange
  rw [rowLoop_Pix n.toNat s yd c a b]
  congr 1
  apply propext
  constructor <;> rintro ⟨⟨h1, h2, h3⟩, h4⟩ <;> exact ⟨⟨h1, h2, by omega⟩, h4⟩

theorem forRange_col_Rect (n : Int) (s : NRGBA) (xd : Int) (c : Int → Color) :
    (forRange n s (fun i s => NRGBA.Set s xd (i + 1) (c i))).Rect = s.Rect := by
  unfold forRange
  exact colLoop_Rect n.toNat s xd c

theorem forRange_col_Pix (n : Int) (s : NRGBA) (xd : Int) (c : Int → Color) (a b : Int) :
    (forRange n s (fun i s => NRGBA.Set s xd (i + 1) (c i))).Pix a b =
      if (a = xd ∧ 1 ≤ b ∧ b ≤ n) ∧ Point.In ⟨a, b⟩ s.Rect = true then c (b - 1)
      else s.Pix a b := by
  unfold forRange
  rw [colLoop_Pix n.toNat s xd c a b]
  congr 1
  apply propext
  constructor <;> rintro ⟨⟨h1, h2, h3⟩, h4⟩ <;> exact ⟨⟨h1, h2, by omega⟩, h4⟩

/-! ## One extrusion step -/

theorem ExtrudeImageOnce_Bounds (I : Image)
    (hx : I.Bounds.Min.X ≤ I.Bounds.Max.X) (hy : I.Bounds.Min.Y ≤ I.Bounds.Max.Y) :
    (ExtrudeImageOnce I).Bounds = ⟨⟨0, 0⟩, ⟨I.Bounds.Dx + 2, I.Bounds.Dy + 2⟩⟩ := by
  simp only [ExtrudeImageOnce, NRGBA.toImage, forRange_row_Rect, forRange_col_Rect, Set_Rect,
    Draw_Rect, NewNRGBA]
  apply Rect_of_nonneg <;> simp only [Rectangle.Dx, Rectangle.Dy] <;> omega

theorem ExtrudeImageOnce_At (I : Image) (w h : Int) (hb : I.Bounds = ⟨⟨0, 0⟩, ⟨w, h⟩⟩)
    (hw : 0 ≤ w) (hh : 0 ≤ h) (a b : Int) :
    (ExtrudeImageOnce I).At a b =
      if 0 ≤ a ∧ a < w + 2 ∧ 0 ≤ b ∧ b < h + 2 then
        if a = w + 1 ∧ 1 ≤ b ∧ b ≤ w then I.At (w - 1) (b - 1)
        else if a = 0 ∧ 1 ≤ b ∧ b ≤ h then I.At 0 (b - 1)
        else if a = w + 1 ∧ b = h + 1 then I.At (w - 1) (h - 1)
        else if a = 0 ∧ b = h + 1 then I.At 0 (h - 1)
        else if a = w + 1 ∧ b = 0 then I.At (w - 1) 0
        else if a = 0 ∧ b = 0 then I.At 0 0
        else if b = h + 1 ∧ 1 ≤ a ∧ a ≤ w then I.At (a - 1) (h - 1)
        else if b = 0 ∧ 1 ≤ a ∧ a ≤ w then I.At (a - 1) 0
        else if 1 ≤ a ∧ a ≤ w ∧ 1 ≤ b ∧ b ≤ h then I.At (a - 1) (b - 1)
        else Color.zero
      else Color.zero := by
  have hR : Rect 0 0 (w + 2) (h + 2) = ⟨⟨0, 0⟩, ⟨w + 2, h + 2⟩⟩ :=
    Rect_of_nonneg _ _ (by omega) (by omega)
  simp only [ExtrudeImageOnce, NRGBA.toImage, NRGBA.At, forRange_row_Rect, forRange_col_Rect,
    Set_Rect, Draw_Rect, forRange_row_Pix, forRange_col_Pix, Set_Pix, Draw_Pix, NewNRGBA, hb,
    Rectangle.Dx, Rectangle.Dy, Rectangle.Add, Point.Sub, ZP, In_iff, sub_zero, mul_one, hR]
  by_cases hin : 0 ≤ a ∧ a < w + 2 ∧ 0 ≤ b ∧ b < h + 2
  · rw [if_pos hin, if_pos hin]
    refine if_congr (by omega) rfl ?_
    refine if_congr (by omega) rfl ?_
    refine if_congr (by omega) rfl ?_
    refine if_congr (by omega) rfl ?_
    refine if_congr (by omega) rfl ?_
    refine if_congr (by omega) rfl ?_
    refine if_congr (by omega) rfl ?_
    refine if_congr (by omega) rfl ?_
    refine if_congr (by omega) ?_ rfl
    congr 1 <;> omega
  · rw [if_neg hin, if_neg hin]

theorem ExtrudeImageOnce_At_mid (I : Image) (w h : Int) (hb : I.Bounds = ⟨⟨0, 0⟩, ⟨w, h⟩⟩)
    (hw : 0 ≤ w) (hh : 1 ≤ h) (a b : Int) (ha : 1 ≤ a ∧ a ≤ w) (hb2 : 0 ≤ b ∧ b < h + 2) :
    (ExtrudeImageOnce I).At a b = I.At (a - 1) (max 0 (min (b - 1) (h - 1))) := by
  rw [ExtrudeImageOnce_At I w h hb hw (by omega)]
  rw [if_pos (by omega), if_neg (by omega), if_neg (by omega), if_neg (by omega),
    if_neg (by omega), if_neg (by omega), if_neg (by omega)]
  by_cases h1 : b = h + 1
  · rw [if_pos (by omega)]; congr 1; omega
  · rw [if_neg (by omega)]
    by_cases h2 : b = 0
    · rw [if_pos (by omega)]; congr 1; omega
    · rw [if_neg (by omega), if_pos (by omega)]; congr 1; omega

/-! ## Repeated extrusion -/

theorem ExtrudeImage_zero (I : Image) : ExtrudeImage I 0 = I := rfl

theorem ExtrudeImage_succ (I : Image) (p : Nat) :
    ExtrudeImage I ((p + 1 : Nat) : Int) = ExtrudeImageOnce (ExtrudeImage I (p : Int)) := by
  unfold ExtrudeImage
  rw [forRange_natCast, forRange_natCast, List.range_succ, List.foldl_append]
  rfl

theorem ExtrudeImage_Bounds (I : Image) (w h : Int) (hb : I.Bounds = ⟨⟨0, 0⟩, ⟨w, h⟩⟩)
    (hw : 0 ≤ w) (hh : 0 ≤ h) (p : Nat) :
    (ExtrudeImage I (p : Int)).Bounds = ⟨⟨0, 0⟩, ⟨w + 2 * p, h + 2 * p⟩⟩ := by
  induction p with
  | zero => simpa [ExtrudeImage_zero] using hb
  | succ k ih =>
    rw [ExtrudeImage_succ, ExtrudeImageOnce_Bounds _ (by rw [ih]; dsimp only; omega)
      (by rw [ih]; dsimp only; omega), ih]
    simp only [Rectangle.Dx, Rectangle.Dy]
    congr 2 <;> push_cast <;> ring

/-- Columns of the source keep their content and repeat their end pixels upwards and
downwards. -/
theorem ExtrudeImage_At_mid (I : Image) (w h : Int) (hb : I.Bounds = ⟨⟨0, 0⟩, ⟨w, h⟩⟩)
    (hw : 0 ≤ w) (hh : 1 ≤ h) (p : Nat) :
    ∀ x y : Int, p ≤ x ∧ x < p + w → 0 ≤ y ∧ y < h + 2 * p →
      (ExtrudeImage I (p : Int)).At x y = I.At (x - p) (max 0 (min (y - p) (h - 1))) := by
  induction p with
  | zero =>
    intro x y hx hy
    rw [show ((0 : Nat) : Int) = 0 from rfl, ExtrudeImage_zero]
    congr 1 <;> omega
  | succ k ih =>
    intro x y hx hy
    have hB := ExtrudeImage_Bounds I w h hb hw (by omega) k
    rw [ExtrudeImage_succ,
      ExtrudeImageOnce_At_mid _ (w + 2 * k) (h + 2 * k) hB (by omega) (by omega) x y
        (by push_cast at hx; omega) (by push_cast at hy; omega),
      ih (x - 1) _ (by push_cast at hx; omega) (by push_cast at hy; omega)]
    congr 1
    · push_cast; omega
    · push_cast at hy ⊢; omega

theorem ExtrudeImage_wellFormed_dims (I : Image)
    (hx : I.Bounds.Min.X ≤ I.Bounds.Max.X) (hy : I.Bounds.Min.Y ≤ I.Bounds.Max.Y) (p : Nat) :
    ((ExtrudeImage I (p : Int)).Bounds.Min.X ≤ (ExtrudeImage I (p : Int)).Bounds.Max.X ∧
      (ExtrudeImage I (p : Int)).Bounds.Min.Y ≤ (ExtrudeImage I (p : Int)).Bounds.Max.Y) ∧
    (ExtrudeImage I (p : Int)).Bounds.Dx = I.Bounds.Dx + 2 * p ∧
    (ExtrudeImage I (p : Int)).Bounds.Dy = I.Bounds.Dy + 2 * p := by
  induction p with
  | zero =>
    rw [show ((0 : Nat) : Int) = 0 from rfl, ExtrudeImage_zero]
    exact ⟨⟨hx, hy⟩, by simp, by simp⟩
  | succ k ih =>
    obtain ⟨⟨h1, h2⟩, h3, h4⟩ := ih
    rw [ExtrudeImage_succ, ExtrudeImageOnce_Bounds _ h1 h2, h3, h4]
    simp only [Rectangle.Dx, Rectangle.Dy] at *
    push_cast
    refine ⟨⟨?_, ?_⟩, ?_, ?_⟩ <;> omega

/-! ## The manifest map -/

theorem mapGet_mapSet_self {V : Type} (m : List (String × V)) (k : String) (v : V) :
    mapGet (mapSet m k v) k = some v := by
  simp [mapGet, mapSet]

theorem mapGet_filter_ne {V : Type} (m : List (String × V)) (k k2 : String) (h : k2 ≠ k) :
    mapGet (m.filter (fun e => e.1 != k)) k2 = mapGet m k2 := by
  unfold mapGet
  rw [List.find?_filter]
  congr 2
  funext a
  by_cases h1 : a.1 = k2
  · have h2 : ¬ a.1 = k := fun e => h (h1 ▸ e)
    simp [h1, h2, h]
  · simp [h1]

theorem mapGet_mapSet_ne {V : Type} (m : List (String × V)) (k k2 : String) (v : V)
    (h : k2 ≠ k) : mapGet (mapSet m k v) k2 = mapGet m k2 := by
  have h1 := mapGet_filter_ne m k k2 h
  unfold mapGet mapSet at *
  have h2 : ¬ k = k2 := fun e => h e.symm
  simpa [List.find?_cons, h2] using h1

theorem mem_mapKeys_mapSet {V : Type} (m : List (String × V)) (k k2 : String) (v : V) :
    k2 ∈ mapKeys (mapSet m k v) ↔ k2 = k ∨ k2 ∈ mapKeys m := by
  simp only [mapKeys, mapSet, List.map_cons, List.mem_cons, List.mem_map, List.mem_filter]
  constructor
  · rintro (h | ⟨e, ⟨he, _⟩, rfl⟩)
    · exact Or.inl h
    · exact Or.inr ⟨e, he, rfl⟩
  · rintro (h | ⟨e, he, rfl⟩)
    · exact Or.inl h
    · by_cases h1 : e.1 = k
      · exact Or.inl h1
      · exact Or.inr ⟨e, ⟨he, by simpa using h1⟩, rfl⟩

theorem length_mapSet_of_not_mem {V : Type} (m : List (String × V)) (k : String) (v : V)
    (h : k ∉ mapKeys m) : (mapSet m k v).length = m.length + 1 := by
  have : m.filter (fun e => e.1 != k) = m := by
    rw [List.filter_eq_self]
    intro e he
    have : e.1 ≠ k := fun h1 => h (by rw [← h1]; exact List.mem_map_of_mem _ he)
    simpa using this
  simp [mapSet, this]

/-! ## Go `int` and `float64`: exact cases -/

theorem wrapInt_of_range (v : Int) (h1 : -9223372036854775808 ≤ v)
    (h2 : v < 9223372036854775808) : wrapInt v = v := by
  unfold wrapInt
  omega

theorem wrapInt_add_wrapInt (a b : Int) :
    wrapInt (wrapInt a + wrapInt b) = wrapInt (a + b) := by
  unfold wrapInt
  omega

theorem wrapInt_wrapInt_add (a b : Int) : wrapInt (wrapInt a + b) = wrapInt (a + b) := by
  unfold wrapInt
  omega

theorem wrapInt_sub_wrapInt (a b : Int) :
    wrapInt (wrapInt a - wrapInt b) = wrapInt (a - b) := by
  unfold wrapInt
  omega

theorem wrapInt_wrapInt (a : Int) : wrapInt (wrapInt a) = wrapInt a := by
  unfold wrapInt
  omega

theorem float64_of_lt (i : Int) (h1 : -9007199254740992 < i) (h2 : i < 9007199254740992) :
    float64 i = i := by
  have ha : i.natAbs < 2 ^ 53 := by norm_num; omega
  have he : (List.range 12).filter (fun k => decide (2 ^ (53 + k) ≤ i.natAbs)) = [] := by
    rw [List.filter_eq_nil_iff]
    intro k _
    have : 2 ^ 53 ≤ 2 ^ (53 + k) := Nat.pow_le_pow_right (by norm_num) (by omega)
    simp only [decide_eq_true_eq]
    omega
  unfold float64
  simp only [he, List.length_nil, pow_zero, Nat.div_one, Nat.mod_one, mul_zero, mul_one]
  have hc : ¬ (1 < 0 ∨ (0 = 1 ∧ i.natAbs % 2 = 1)) := by omega
  rw [if_neg hc]
  split_ifs <;> omega

/-! ## The packing loop -/

theorem packStep_currentPos (p : Int) (s : PackState) (S : ImageData) :
    (packStep p s S).currentPos =
      ⟨wrapInt (s.currentPos.X + wrapInt (ExtrudeImage S.img p).Bounds.Dx),
        s.currentPos.Y⟩ := rfl

theorem packStep_atlas (p : Int) (s : PackState) (S : ImageData) :
    (packStep p s S).atlas =
      Draw s.atlas (wrapRect ((ExtrudeImage S.img p).Bounds.Add s.currentPos))
        (ExtrudeImage S.img p) ZP :=
  rfl

theorem packStep_atlas_destBounds (p : Int) (s : PackState) (S : ImageData) :
    (packStep p s S).atlas = Draw s.atlas (destBounds p s S) (ExtrudeImage S.img p) ZP := rfl

theorem packStep_Frames (p : Int) (s : PackState) (S : ImageData) :
    (packStep p s S).data.Frames =
      mapSet s.data.Frames S.filename
        { Frame :=
            { X := float64
                (wrapRect ((wrapRect (S.img.Bounds.Add s.currentPos)).Add ⟨p, p⟩)).Min.X
              Y := float64
                (wrapRect ((wrapRect (S.img.Bounds.Add s.currentPos)).Add ⟨p, p⟩)).Min.Y
              W := float64 (wrapInt
                (wrapRect ((wrapRect (S.img.Bounds.Add s.currentPos)).Add ⟨p, p⟩)).Dx)
              H := float64 (wrapInt
                (wrapRect ((wrapRect (S.img.Bounds.Add s.currentPos)).Add ⟨p, p⟩)).Dy) }
          Rotated := false
          Trimmed := false
          SpriteSourceSize := ⟨0, 0, 0, 0⟩
          SourceSize := ⟨0, 0⟩
          Pivot := ⟨0, 0⟩ } := rfl

/-- The frame of one iteration, with the sums taken before wrapping. -/
theorem packStep_Frames_wrapped (p : Int) (s : PackState) (S : ImageData) :
    (packStep p s S).data.Frames =
      mapSet s.data.Frames S.filename
        { Frame :=
            { X := float64 (wrapInt (S.img.Bounds.Min.X + s.currentPos.X + p))
              Y := float64 (wrapInt (S.img.Bounds.Min.Y + s.currentPos.Y + p))
              W := float64 (wrapInt S.img.Bounds.Dx)
              H := float64 (wrapInt S.img.Bounds.Dy) }
          Rotated := false
          Trimmed := false
          SpriteSourceSize := ⟨0, 0, 0, 0⟩
          SourceSize := ⟨0, 0⟩
          Pivot := ⟨0, 0⟩ } := by
  rw [packStep_Frames]
  simp only [wrapRect, Rectangle.Add, Rectangle.Dx, Rectangle.Dy, wrapInt_wrapInt_add,
    wrapInt_sub_wrapInt]
  congr 4 <;> congr 1 <;> ring

/-- The cursor after the loop: the widths of the extruded blocks added up, as a Go `int`. -/
theorem foldl_packStep_currentPos_any (p : Int) (images : List ImageData) :
    ∀ s : PackState, wrapInt s.currentPos.X = s.currentPos.X →
      (images.foldl (packStep p) s).currentPos =
        ⟨wrapInt (s.currentPos.X +
            (images.map (fun T => (ExtrudeImage T.img p).Bounds.Dx)).sum),
          s.currentPos.Y⟩ := by
  induction images with
  | nil =>
    intro s hs
    simp only [List.foldl_nil, List.map_nil, List.sum_nil, add_zero, hs]
  | cons S t ih =>
    intro s hs
    rw [List.foldl_cons, ih _ (by rw [packStep_currentPos]; exact wrapInt_wrapInt _),
      packStep_currentPos]
    simp only [List.map_cons, List.sum_cons]
    congr 1
    unfold wrapInt
    omega

theorem sum_extruded_widths (p : Nat) (l : List ImageData)
    (h0 : ∀ U ∈ l, U.img.Bounds.Min.X ≤ U.img.Bounds.Max.X ∧
      U.img.Bounds.Min.Y ≤ U.img.Bounds.Max.Y) :
    (l.map (fun T => (ExtrudeImage T.img (p : Int)).Bounds.Dx)).sum =
      (l.map (fun T => T.img.Bounds.Dx + 2 * (p : Int))).sum := by
  induction l with
  | nil => rfl
  | cons S t ih =>
    have hS := h0 S (List.mem_cons_self _ _)
    simp only [List.map_cons, List.sum_cons]
    rw [ih (fun U hU => h0 U (List.mem_cons_of_mem _ hU)),
      (ExtrudeImage_wellFormed_dims S.img hS.1 hS.2 p).2.1]

theorem sum_widths_nonneg (p : Nat) (l : List ImageData)
    (h0 : ∀ U ∈ l, U.img.Bounds.Min.X ≤ U.img.Bounds.Max.X ∧
      U.img.Bounds.Min.Y ≤ U.img.Bounds.Max.Y) :
    0 ≤ (l.map (fun U => U.img.Bounds.Dx + 2 * (p : Int))).sum := by
  apply List.sum_nonneg
  intro v hv
  obtain ⟨U, hU, rfl⟩ := List.mem_map.mp hv
  obtain ⟨h1, -⟩ := h0 U hU
  simp only [Rectangle.Dx]
  omega

theorem wellFormed_of_origin (l : List ImageData)
    (h0 : ∀ U ∈ l, U.img.Bounds.Min = ⟨0, 0⟩ ∧ 0 ≤ U.img.Bounds.Max.X ∧
      0 ≤ U.img.Bounds.Max.Y) :
    ∀ U ∈ l, U.img.Bounds.Min.X ≤ U.img.Bounds.Max.X ∧
      U.img.Bounds.Min.Y ≤ U.img.Bounds.Max.Y := by
  intro U hU
  obtain ⟨h1, h2, h3⟩ := h0 U hU
  rw [h1]
  exact ⟨h2, h3⟩

/-- The cursor after the loop when the total width stays below `2^63`: the plain sum. -/
theorem foldl_packStep_currentPos (p : Nat) (images : List ImageData) (width height : Int)
    (h0 : ∀ T ∈ images, T.img.Bounds.Min.X ≤ T.img.Bounds.Max.X ∧
      T.img.Bounds.Min.Y ≤ T.img.Bounds.Max.Y)
    (hb : (images.map (fun T => T.img.Bounds.Dx + 2 * (p : Int))).sum < 9223372036854775808) :
    (images.foldl (packStep (p : Int)) (packInit width height)).currentPos =
      ⟨(images.map (fun T => T.img.Bounds.Dx + 2 * (p : Int))).sum, 0⟩ := by
  have hn := sum_widths_nonneg p images h0
  rw [foldl_packStep_currentPos_any _ _ _ (by simp only [packInit]; unfold wrapInt; omega),
    sum_extruded_widths p images h0]
  simp only [packInit, zero_add]
  rw [wrapInt_of_range _ (by omega) hb]

theorem foldl_packStep_mapGet (p : Int) (k : String) (images : List ImageData)
    (hk : k ∉ images.map (fun T => T.filename)) :
    ∀ s : PackState, mapGet (images.foldl (packStep p) s).data.Frames k =
      mapGet s.data.Frames k := by
  induction images with
  | nil => intro s; rfl
  | cons S t ih =>
    intro s
    simp only [List.map_cons, List.mem_cons, not_or] at hk
    rw [List.foldl_cons, ih hk.2, packStep_Frames, mapGet_mapSet_ne _ _ _ _ hk.1]

theorem foldl_packStep_mapKeys (p : Int) (k : String) (images : List ImageData) :
    ∀ s : PackState, k ∈ mapKeys (images.foldl (packStep p) s).data.Frames ↔
      k ∈ mapKeys s.data.Frames ∨ k ∈ images.map (fun T => T.filename) := by
  induction images with
  | nil => intro s; simp
  | cons S t ih =>
    intro s
    rw [List.foldl_cons, ih, packStep_Frames, mem_mapKeys_mapSet]
    simp only [List.map_cons, List.mem_cons]
    tauto

theorem foldl_packStep_length (p : Int) (images : List ImageData)
    (hn : (images.map (fun T => T.filename)).Nodup) :
    ∀ s : PackState, (∀ k ∈ images.map (fun T => T.filename), k ∉ mapKeys s.data.Frames) →
      (images.foldl (packStep p) s).data.Frames.length =
        s.data.Frames.length + images.length := by
  induction images with
  | nil => intro s _; rfl
  | cons S t ih =>
    intro s hs
    simp only [List.map_cons, List.nodup_cons] at hn
    have h1 : S.filename ∉ mapKeys s.data.Frames := hs _ (by simp)
    rw [List.foldl_cons, ih hn.2, packStep_Frames, length_mapSet_of_not_mem _ _ _ h1]
    · simp only [List.length_cons]; omega
    · intro k hk
      rw [packStep_Frames, mem_mapKeys_mapSet]
      rintro (h2 | h2)
      · exact hn.1 (h2 ▸ hk)
      · exact hs k (by simp only [List.map_cons, List.mem_cons]; exact Or.inr hk) h2

theorem foldl_packStep_Rect (p : Int) (images : List ImageData) :
    ∀ s : PackState, (images.foldl (packStep p) s).atlas.Rect = s.atlas.Rect := by
  induction images with
  | nil => intro s; rfl
  | cons S t ih => intro s; rw [List.foldl_cons, ih, packStep_atlas, Draw_Rect]

theorem nodup_mapKeys_mapSet {V : Type} (m : List (String × V)) (k : String) (v : V)
    (h : (mapKeys m).Nodup) : (mapKeys (mapSet m k v)).Nodup := by
  unfold mapKeys mapSet at *
  rw [List.map_cons, List.nodup_cons]
  constructor
  · simp
  · exact (List.filter_sublist m).map _ |>.nodup h

theorem foldl_packStep_nodup (p : Int) (images : List ImageData) :
    ∀ s : PackState, (mapKeys s.data.Frames).Nodup →
      (mapKeys (images.foldl (packStep p) s).data.Frames).Nodup := by
  induction images with
  | nil => intro s h; exact h
  | cons S t ih =>
    intro s h
    rw [List.foldl_cons]
    apply ih
    rw [packStep_Frames]
    exact nodup_mapKeys_mapSet _ _ _ h

theorem bounds_of_origin (I : Image) (hmin : I.Bounds.Min = ⟨0, 0⟩) :
    I.Bounds = ⟨⟨0, 0⟩, ⟨I.Bounds.Dx, I.Bounds.Dy⟩⟩ := by
  have h1 : I.Bounds.Dx = I.Bounds.Max.X := by simp [Rectangle.Dx, hmin]
  have h2 : I.Bounds.Dy = I.Bounds.Max.Y := by simp [Rectangle.Dy, hmin]
  rw [h1, h2, ← hmin]

theorem Draw_Pix_of_not_In (dst : NRGBA) (r : Rectangle) (src : Image) (sp : Point)
    (x y : Int) (h : Point.In ⟨x, y⟩ r = false) : (Draw dst r src sp).Pix x y = dst.Pix x y := by
  rw [Draw_Pix, if_neg]
  rintro ⟨h1, -⟩
  rw [h] at h1
  exact Bool.noConfusion h1

/-- A pixel outside every destination block keeps the colour it had before the loop. -/
theorem foldl_packStep_Pix_outside (p : Int) (x y : Int) (s0 : PackState) :
    ∀ images : List ImageData,
      (∀ (pre post : List ImageData) (S : ImageData), images = pre ++ S :: post →
        Point.In ⟨x, y⟩ (destBounds p (pre.foldl (packStep p) s0) S) = false) →
      (images.foldl (packStep p) s0).atlas.Pix x y = s0.atlas.Pix x y := by
  intro images
  induction images using List.reverseRecOn with
  | nil => intro _; rfl
  | append_singleton l S ih =>
    intro h
    rw [List.foldl_append, List.foldl_cons, List.foldl_nil, packStep_atlas_destBounds,
      Draw_Pix_of_not_In _ _ _ _ _ _ (h l [] S rfl)]
    apply ih
    intro pre post T hl
    apply h pre (post ++ [S]) T
    rw [hl]
    simp

theorem every_entry_mapSet {V : Type} (P : V → Prop) (m : List (String × V)) (k : String)
    (v : V) (hm : ∀ e ∈ m, P e.2) (hv : P v) : ∀ e ∈ mapSet m k v, P e.2 := by
  intro e he
  unfold mapSet at he
  rcases List.mem_cons.mp he with h | h
  · rw [h]; exact hv
  · exact hm e (List.mem_filter.mp h).1

theorem foldl_packStep_every_entry (P : SerializedFrame → Prop) (p : Int)
    (hP : ∀ r : SerializedRect, P ⟨r, false, false, ⟨0, 0, 0, 0⟩, ⟨0, 0⟩, ⟨0, 0⟩⟩)
    (images : List ImageData) :
    ∀ s : PackState, (∀ e ∈ s.data.Frames, P e.2) →
      ∀ e ∈ (images.foldl (packStep p) s).data.Frames, P e.2 := by
  induction images with
  | nil => intro s hs; exact hs
  | cons S t ih =>
    intro s hs
    rw [List.foldl_cons]
    apply ih
    rw [packStep_Frames]
    exact every_entry_mapSet P _ _ _ hs (hP _)

/-- The last sprite of a list that carries a given name. -/
theorem exists_last_named (k : String) (l : List ImageData)
    (hk : k ∈ l.map (fun U => U.filename)) :
    ∃ (pre post : List ImageData) (S : ImageData), l = pre ++ S :: post ∧ S.filename = k ∧
      k ∉ post.map (fun U => U.filename) := by
  induction l with
  | nil => simp at hk
  | cons a t ih =>
    by_cases ht : k ∈ t.map (fun U => U.filename)
    · obtain ⟨pre, post, S, h1, h2, h3⟩ := ih ht
      exact ⟨a :: pre, post, S, by rw [h1]; rfl, h2, h3⟩
    · refine ⟨[], t, a, rfl, ?_, ht⟩
      simp only [List.map_cons, List.mem_cons] at hk
      rcases hk with h | h
      · exact h.symm
      · exact absurd h ht

/-- Two places of one list holding different sprites: one comes first. -/
theorem split_two (pre1 post1 pre2 post2 : List ImageData) (S1 S2 : ImageData)
    (h : pre1 ++ S1 :: post1 = pre2 ++ S2 :: post2) (hne : S1.filename ≠ S2.filename) :
    (∃ mid, pre2 = pre1 ++ S1 :: mid) ∨ (∃ mid, pre1 = pre2 ++ S2 :: mid) := by
  rcases List.append_eq_append_iff.mp h with ⟨a, h1, h2⟩ | ⟨c, h1, h2⟩
  · cases a with
    | nil =>
      simp only [List.nil_append, List.cons.injEq] at h2
      exact absurd (congrArg ImageData.filename h2.1) hne
    | cons x a2 =>
      simp only [List.cons_append, List.cons.injEq] at h2
      exact Or.inl ⟨a2, by rw [h1, h2.1]⟩
  · cases c with
    | nil =>
      simp only [List.nil_append, List.cons.injEq] at h2
      exact absurd (congrArg ImageData.filename h2.1).symm hne
    | cons x c2 =>
      simp only [List.cons_append, List.cons.injEq] at h2
      exact Or.inr ⟨c2, by rw [h1, h2.1]⟩

theorem mem_names_of_mapGet (p : Int) (k : String) (f : SerializedFrame)
    (images : List ImageData) (width height : Int)
    (h : mapGet (images.foldl (packStep p) (packInit width height)).data.Frames k = some f) :
    k ∈ images.map (fun U => U.filename) := by
  by_contra hk
  rw [foldl_packStep_mapGet p k images hk] at h
  exact Option.noConfusion h

/-- The manifest entry of the sprite `S` when no later sprite carries its name: the frame
computed in the iteration of `S`, from the cursor left by the sprites `pre`. -/
theorem foldl_packStep_entry_any (pre post : List ImageData) (S : ImageData)
    (width height p : Int) (hpost : S.filename ∉ post.map (fun T => T.filename)) :
    mapGet ((pre ++ S :: post).foldl (packStep p) (packInit width height)).data.Frames
        S.filename =
      some
        { Frame :=
            { X := float64 (wrapInt (S.img.Bounds.Min.X +
                (pre.map (fun T => (ExtrudeImage T.img p).Bounds.Dx)).sum + p))
              Y := float64 (wrapInt (S.img.Bounds.Min.Y + p))
              W := float64 (wrapInt S.img.Bounds.Dx)
              H := float64 (wrapInt S.img.Bounds.Dy) }
          Rotated := false
          Trimmed := false
          SpriteSourceSize := ⟨0, 0, 0, 0⟩
          SourceSize := ⟨0, 0⟩
          Pivot := ⟨0, 0⟩ } := by
  rw [List.foldl_append, List.foldl_cons, foldl_packStep_mapGet _ _ _ hpost,
    packStep_Frames_wrapped, mapGet_mapSet_self,
    foldl_packStep_currentPos_any p pre _ (by simp only [packInit]; rfl)]
  simp only [packInit, zero_add, add_zero]
  congr 4
  unfold wrapInt
  omega

/-- The manifest entry of the sprite `S` placed after the sprites `pre`, when the block of
`S` ends below `2^53` in both directions. -/
theorem foldl_packStep_entry (pre post : List ImageData) (S : ImageData) (width height : Int)
    (p : Nat) (hpost : S.filename ∉ post.map (fun T => T.filename))
    (h0 : ∀ T ∈ pre, T.img.Bounds.Min.X ≤ T.img.Bounds.Max.X ∧
      T.img.Bounds.Min.Y ≤ T.img.Bounds.Max.Y)
    (hS : S.img.Bounds.Min = ⟨0, 0⟩ ∧ 0 ≤ S.img.Bounds.Max.X ∧ 0 ≤ S.img.Bounds.Max.Y)
    (hb : (pre.map (fun T => T.img.Bounds.Dx + 2 * (p : Int))).sum + S.img.Bounds.Dx + 2 * p <
      9007199254740992)
    (hbh : S.img.Bounds.Dy + 2 * p < 9007199254740992) :
    mapGet ((pre ++ S :: post).foldl (packStep (p : Int)) (packInit width height)).data.Frames
        S.filename =
      some
        { Frame :=
            { X := p + (pre.map (fun T => T.img.Bounds.Dx + 2 * (p : Int))).sum
              Y := p
              W := S.img.Bounds.Dx
              H := S.img.Bounds.Dy }
          Rotated := false
          Trimmed := false
          SpriteSourceSize := ⟨0, 0, 0, 0⟩
          SourceSize := ⟨0, 0⟩
          Pivot := ⟨0, 0⟩ } := by
  have hn := sum_widths_nonneg p pre h0
  have hx : S.img.Bounds.Min.X = 0 := by rw [hS.1]
  have hy : S.img.Bounds.Min.Y = 0 := by rw [hS.1]
  have hd : 0 ≤ S.img.Bounds.Dx ∧ 0 ≤ S.img.Bounds.Dy := by
    simp only [Rectangle.Dx, Rectangle.Dy]
    omega
  rw [foldl_packStep_entry_any pre post S width height p hpost, sum_extruded_widths p pre h0,
    hx, hy]
  rw [wrapInt_of_range (0 + _ + _) (by omega) (by omega),
    wrapInt_of_range (0 + (p : Int)) (by omega) (by omega),
    wrapInt_of_range S.img.Bounds.Dx (by omega) (by omega),
    wrapInt_of_range S.img.Bounds.Dy (by omega) (by omega),
    float64_of_lt (0 + _ + _) (by omega) (by omega),
    float64_of_lt (0 + (p : Int)) (by omega) (by omega),
    float64_of_lt S.img.Bounds.Dx (by omega) (by omega),
    float64_of_lt S.img.Bounds.Dy (by omega) (by omega)]
  congr 3 <;> ring

/-- Blits of later sprites stay to the right of the cursor, while the cursor stays below
`2^63`. -/
theorem foldl_packStep_Pix_left (p : Nat) (a b : Int) (images : List ImageData)
    (h0 : ∀ T ∈ images, T.img.Bounds.Min = ⟨0, 0⟩ ∧ 0 ≤ T.img.Bounds.Max.X ∧
      0 ≤ T.img.Bounds.Max.Y) :
    ∀ s : PackState, 0 ≤ s.currentPos.X →
      s.currentPos.X + (images.map (fun T => T.img.Bounds.Dx + 2 * (p : Int))).sum <
        9223372036854775808 →
      a < s.currentPos.X →
      (images.foldl (packStep (p : Int)) s).atlas.Pix a b = s.atlas.Pix a b := by
  induction images with
  | nil => intro s _ _ _; rfl
  | cons S t ih =>
    intro s hs hb ha
    obtain ⟨hmin, hmx, hmy⟩ := h0 S (List.mem_cons_self _ _)
    have ht : ∀ T ∈ t, _ := fun T hT => h0 T (List.mem_cons_of_mem _ hT)
    have hn := sum_widths_nonneg p t (wellFormed_of_origin t ht)
    have hbd : S.img.Bounds = ⟨⟨0, 0⟩, ⟨S.img.Bounds.Max.X, S.img.Bounds.Max.Y⟩⟩ := by
      rw [← hmin]
    have hB := ExtrudeImage_Bounds S.img _ _ hbd hmx hmy p
    have hDx : S.img.Bounds.Dx = S.img.Bounds.Max.X := by
      simp only [Rectangle.Dx, hmin, sub_zero]
    simp only [List.map_cons, List.sum_cons, hDx] at hb
    have hX : (packStep (p : Int) s S).currentPos.X =
        s.currentPos.X + (S.img.Bounds.Max.X + 2 * p) := by
      rw [packStep_currentPos, hB]
      simp only [Rectangle.Dx, sub_zero]
      rw [wrapInt_of_range (S.img.Bounds.Max.X + 2 * p) (by omega) (by omega),
        wrapInt_of_range _ (by omega) (by omega)]
    rw [List.foldl_cons, ih ht _ (by rw [hX]; omega) (by rw [hX]; omega) (by rw [hX]; omega),
      packStep_atlas, Draw_Pix, if_neg]
    rw [hB, In_iff]
    simp only [Rectangle.Add, wrapRect, zero_add]
    rw [wrapInt_of_range s.currentPos.X (by omega) (by omega)]
    omega

/-- The atlas holds the content of `S` at its frame, while the cursor stays below `2^63`. -/
theorem foldl_packStep_content (pre post : List ImageData) (S : ImageData) (width height : Int)
    (p : Nat)
    (h0 : ∀ T ∈ pre ++ S :: post, T.img.Bounds.Min = ⟨0, 0⟩ ∧ 0 ≤ T.img.Bounds.Max.X ∧
      0 ≤ T.img.Bounds.Max.Y)
    (htot : ((pre ++ S :: post).map (fun T => T.img.Bounds.Dx + 2 * (p : Int))).sum <
      9223372036854775808)
    (hbh : S.img.Bounds.Dy + 2 * p < 9223372036854775808)
    (u v : Int) (hu : 0 ≤ u ∧ u < S.img.Bounds.Dx) (hv : 0 ≤ v ∧ v < S.img.Bounds.Dy)
    (hin : Point.In ⟨p + (pre.map (fun T => T.img.Bounds.Dx + 2 * (p : Int))).sum + u, p + v⟩
      (Rect 0 0 width height) = true) :
    ((pre ++ S :: post).foldl (packStep (p : Int)) (packInit width height)).atlas.Pix
        (p + (pre.map (fun T => T.img.Bounds.Dx + 2 * (p : Int))).sum + u) (p + v) =
      S.img.At u v := by
  have hpre := wellFormed_of_origin pre (fun T hT => h0 T (List.mem_append_left _ hT))
  have hpost : ∀ T ∈ post, T.img.Bounds.Min = ⟨0, 0⟩ ∧ 0 ≤ T.img.Bounds.Max.X ∧
      0 ≤ T.img.Bounds.Max.Y :=
    fun T hT => h0 T (List.mem_append_right _ (List.mem_cons_of_mem _ hT))
  obtain ⟨hmin, -, -⟩ := h0 S (List.mem_append_right _ (List.mem_cons_self _ _))
  have hb := bounds_of_origin S.img hmin
  have hB := ExtrudeImage_Bounds S.img _ _ hb (by omega) (by omega) p
  have hn1 := sum_widths_nonneg p pre hpre
  have hn2 := sum_widths_nonneg p post (wellFormed_of_origin post hpost)
  simp only [List.map_append, List.map_cons, List.sum_append, List.sum_cons] at htot
  have hpos := foldl_packStep_currentPos p pre width height hpre (by omega)
  have hRect := foldl_packStep_Rect (p : Int) pre (packInit width height)
  have hX : (packStep (p : Int) (pre.foldl (packStep (p : Int)) (packInit width height))
      S).currentPos.X =
      (pre.map (fun T => T.img.Bounds.Dx + 2 * (p : Int))).sum + (S.img.Bounds.Dx + 2 * p) := by
    have hDxE : (ExtrudeImage S.img (p : Int)).Bounds.Dx = S.img.Bounds.Dx + 2 * p := by
      rw [hB]
      exact sub_zero _
    rw [packStep_currentPos, hDxE, hpos]
    dsimp only
    rw [wrapInt_of_range (S.img.Bounds.Dx + 2 * p) (by omega) (by omega),
      wrapInt_of_range _ (by omega) (by omega)]
  rw [List.foldl_append, List.foldl_cons,
    foldl_packStep_Pix_left p _ _ post hpost _ (by rw [hX]; omega) (by rw [hX]; omega)
      (by rw [hX]; omega)]
  have e0 : wrapInt 0 = 0 := rfl
  have e1 : wrapInt (pre.map (fun T => T.img.Bounds.Dx + 2 * (p : Int))).sum =
      (pre.map (fun T => T.img.Bounds.Dx + 2 * (p : Int))).sum :=
    wrapInt_of_range _ (by omega) (by omega)
  have e2 : wrapInt (S.img.Bounds.Dx + 2 * (p : Int) +
      (pre.map (fun T => T.img.Bounds.Dx + 2 * (p : Int))).sum) =
      S.img.Bounds.Dx + 2 * (p : Int) +
        (pre.map (fun T => T.img.Bounds.Dx + 2 * (p : Int))).sum :=
    wrapInt_of_range _ (by omega) (by omega)
  have e3 : wrapInt (S.img.Bounds.Dy + 2 * (p : Int)) = S.img.Bounds.Dy + 2 * (p : Int) :=
    wrapInt_of_range _ (by omega) (by omega)
  clear hX
  rw [packStep_atlas, Draw_Pix, if_pos]
  · rw [hB, hpos]
    simp only [Rectangle.Add, ZP, wrapRect, zero_add, add_zero, e0, e1]
    rw [ExtrudeImage_At_mid S.img _ _ hb (by omega) (by omega) p _ _ (by omega) (by omega)]
    congr 1 <;> omega
  · rw [hRect, hB, hpos]
    simp only [Rectangle.Add, Point.Sub, ZP, wrapRect, zero_add, add_zero, sub_zero, e0, e1,
      e2, e3]
    refine ⟨?_, hin, ?_⟩ <;>
    · rw [In_iff]
      simp only [packInit]
      omega

/-- The columns of the destination block of the sprite `S` placed after the sprites
`pre`, while the cursor stays below `2^63`. -/
theorem destBounds_columns (pre : List ImageData) (S : ImageData) (width height : Int)
    (p : Nat)
    (hpre : ∀ U ∈ pre, U.img.Bounds.Min = ⟨0, 0⟩ ∧ 0 ≤ U.img.Bounds.Max.X ∧
      0 ≤ U.img.Bounds.Max.Y)
    (hS : S.img.Bounds.Min = ⟨0, 0⟩ ∧ 0 ≤ S.img.Bounds.Max.X ∧ 0 ≤ S.img.Bounds.Max.Y)
    (hb : (pre.map (fun U => U.img.Bounds.Dx + 2 * (p : Int))).sum + S.img.Bounds.Dx + 2 * p <
      9223372036854775808) :
    (destBounds (p : Int) (pre.foldl (packStep (p : Int)) (packInit width height)) S).Min.X =
      (pre.map (fun U => U.img.Bounds.Dx + 2 * (p : Int))).sum ∧
    (destBounds (p : Int) (pre.foldl (packStep (p : Int)) (packInit width height)) S).Max.X =
      (pre.map (fun U => U.img.Bounds.Dx + 2 * (p : Int))).sum + S.img.Bounds.Dx + 2 * p := by
  have hb0 := bounds_of_origin S.img hS.1
  have hd : 0 ≤ S.img.Bounds.Dx ∧ 0 ≤ S.img.Bounds.Dy := by
    have h1 : S.img.Bounds.Min.X = 0 := by rw [hS.1]
    have h2 : S.img.Bounds.Min.Y = 0 := by rw [hS.1]
    simp only [Rectangle.Dx, Rectangle.Dy]
    omega
  have hwf := wellFormed_of_origin pre hpre
  have hn := sum_widths_nonneg p pre hwf
  unfold destBounds
  rw [ExtrudeImage_Bounds S.img _ _ hb0 hd.1 hd.2 p,
    foldl_packStep_currentPos p pre width height hwf (by omega)]
  simp only [Rectangle.Add, wrapRect, zero_add]
  rw [wrapInt_of_range (List.sum _) (by omega) (by omega),
    wrapInt_of_range (S.img.Bounds.Dx + 2 * (p : Int) + List.sum _) (by omega) (by omega)]
  constructor
  · trivial
  · ring

/-- The frame recorded under a key is the frame of the last sprite carrying that name;
its columns, while the total width stays below `2^53`. -/
theorem frame_of_mapGet (images : List ImageData) (width height : Int) (p : Nat)
    (h0 : ∀ U ∈ images, U.img.Bounds.Min = ⟨0, 0⟩ ∧ 0 ≤ U.img.Bounds.Max.X ∧
      0 ≤ U.img.Bounds.Max.Y)
    (htot : (images.map (fun T => T.img.Bounds.Dx + 2 * (p : Int))).sum < 9007199254740992)
    (k : String) (f : SerializedFrame)
    (h : mapGet (images.foldl (packStep (p : Int)) (packInit width height)).data.Frames k =
      some f) :
    ∃ (pre post : List ImageData) (S : ImageData), images = pre ++ S :: post ∧
      S.filename = k ∧
      f.Frame.X = p + (pre.map (fun U => U.img.Bounds.Dx + 2 * (p : Int))).sum ∧
      f.Frame.W = S.img.Bounds.Dx := by
  obtain ⟨pre, post, S, h1, h2, h3⟩ :=
    exists_last_named k images (mem_names_of_mapGet _ k f images width height h)
  refine ⟨pre, post, S, h1, h2, ?_⟩
  subst h1
  subst h2
  have hpre := wellFormed_of_origin pre (fun U hU => h0 U (List.mem_append_left _ hU))
  have hpost := wellFormed_of_origin post
    (fun U hU => h0 U (List.mem_append_right _ (List.mem_cons_of_mem _ hU)))
  have hS := h0 S (List.mem_append_right _ (List.mem_cons_self _ _))
  have hx : S.img.Bounds.Min.X = 0 := by rw [hS.1]
  have hd : 0 ≤ S.img.Bounds.Dx := by
    simp only [Rectangle.Dx]
    omega
  have hn1 := sum_widths_nonneg p pre hpre
  have hn2 := sum_widths_nonneg p post hpost
  simp only [List.map_append, List.map_cons, List.sum_append, List.sum_cons] at htot
  rw [foldl_packStep_entry_any pre post S width height p h3, sum_extruded_widths p pre hpre,
    hx] at h
  rw [← Option.some.inj h]
  dsimp only
  rw [wrapInt_of_range (0 + _ + _) (by omega) (by omega),
    wrapInt_of_range S.img.Bounds.Dx (by omega) (by omega),
    float64_of_lt (0 + _ + _) (by omega) (by omega),
    float64_of_lt S.img.Bounds.Dx (by omega) (by omega)]
  constructor
  · ring
  · trivial

theorem clamp_eq (v lo hi : Int) (h : lo ≤ hi) : clamp v lo hi = max lo (min v hi) := by
  unfold clamp
  split_ifs <;> omega

/-- On a square image one step is the clamp-to-edge map. -/
theorem ExtrudeImageOnce_At_square (J : Image) (m : Int) (hb : J.Bounds = ⟨⟨0, 0⟩, ⟨m, m⟩⟩)
    (hm : 1 ≤ m) (a b : Int) (ha : 0 ≤ a ∧ a < m + 2) (hb2 : 0 ≤ b ∧ b < m + 2) :
    (ExtrudeImageOnce J).At a b =
      J.At (max 0 (min (a - 1) (m - 1))) (max 0 (min (b - 1) (m - 1))) := by
  rw [ExtrudeImageOnce_At J m m hb (by omega) (by omega), if_pos (by omega)]
  rcases (by omega : a = 0 ∨ (1 ≤ a ∧ a ≤ m) ∨ a = m + 1) with h1 | h1 | h1 <;>
  rcases (by omega : b = 0 ∨ (1 ≤ b ∧ b ≤ m) ∨ b = m + 1) with h2 | h2 | h2 <;>
  (repeat (first | rw [if_pos (by omega)] | rw [if_neg (by omega)])) <;>
  congr 1 <;> omega

theorem ExtrudeImage_At_square (I : Image) (n : Int) (hb : I.Bounds = ⟨⟨0, 0⟩, ⟨n, n⟩⟩)
    (hn : 1 ≤ n) (p : Nat) :
    ∀ x y : Int, 0 ≤ x ∧ x < n + 2 * p → 0 ≤ y ∧ y < n + 2 * p →
      (ExtrudeImage I (p : Int)).At x y =
        I.At (max 0 (min (x - p) (n - 1))) (max 0 (min (y - p) (n - 1))) := by
  induction p with
  | zero =>
    intro x y hx hy
    rw [show ((0 : Nat) : Int) = 0 from rfl, ExtrudeImage_zero]
    congr 1 <;> omega
  | succ k ih =>
    intro x y hx hy
    have hB := ExtrudeImage_Bounds I n n hb (by omega) (by omega) k
    rw [ExtrudeImage_succ,
      ExtrudeImageOnce_At_square _ (n + 2 * k) hB (by omega) x y
        (by push_cast at hx; omega) (by push_cast at hy; omega),
      ih _ _ (by omega) (by omega)]
    congr 1 <;> push_cast <;> omega

theorem ExtrudeImage_Bounds_pos (I : Image)
    (hx : I.Bounds.Min.X ≤ I.Bounds.Max.X) (hy : I.Bounds.Min.Y ≤ I.Bounds.Max.Y)
    (p : Nat) (hp : 1 ≤ p) :
    (ExtrudeImage I (p : Int)).Bounds =
      ⟨⟨0, 0⟩, ⟨I.Bounds.Dx + 2 * p, I.Bounds.Dy + 2 * p⟩⟩ := by
  obtain ⟨k, rfl⟩ : ∃ k, p = k + 1 := ⟨p - 1, by omega⟩
  obtain ⟨⟨h1, h2⟩, h3, h4⟩ := ExtrudeImage_wellFormed_dims I hx hy k
  rw [ExtrudeImage_succ, ExtrudeImageOnce_Bounds _ h1 h2, h3, h4]
  congr 2 <;> push_cast <;> ring

/-! ## Failures and images without colour -/

theorem NewNRGBA_fails_Rect (memory w h : Int) (hw : 0 ≤ w) (hh : 0 ≤ h)
    (hw2 : w < 4611686018427387904) (hh2 : h < 9223372036854775808)
    (hsz : 4 * w * h < 9223372036854775808) (hm : 4 * w * h ≤ memory) :
    NewNRGBA_fails memory (Rect 0 0 w h) = false := by
  have e1 : wrapInt w = w := wrapInt_of_range w (by omega) (by omega)
  have e2 : wrapInt h = h := wrapInt_of_range h (by omega) (by omega)
  rw [Rect_of_nonneg w h hw hh]
  simp only [NewNRGBA_fails, Rectangle.Dx, Rectangle.Dy, sub_zero, e1, e2, Bool.or_eq_false_iff,
    decide_eq_false_iff_not, not_lt, not_le]
  norm_num
  refine ⟨⟨⟨⟨hw, hh⟩, by omega⟩, hsz⟩, hm⟩

theorem ExtrudeImageOnce_fails_of_small (memory : Int) (I : Image) (hx : 0 ≤ I.Bounds.Dx)
    (hy : 0 ≤ I.Bounds.Dy) (hw2 : I.Bounds.Dx + 2 < 4611686018427387904)
    (hh2 : I.Bounds.Dy + 2 < 9223372036854775808)
    (hsz : 4 * (I.Bounds.Dx + 2) * (I.Bounds.Dy + 2) < 9223372036854775808)
    (hm : 4 * (I.Bounds.Dx + 2) * (I.Bounds.Dy + 2) ≤ memory) :
    ExtrudeImageOnce_fails memory I = false := by
  unfold ExtrudeImageOnce_fails
  rw [wrapInt_of_range I.Bounds.Dx (by omega) (by omega),
    wrapInt_of_range I.Bounds.Dy (by omega) (by omega),
    wrapInt_of_range (I.Bounds.Dx + 2) (by omega) (by omega),
    wrapInt_of_range (I.Bounds.Dy + 2) (by omega) (by omega)]
  exact NewNRGBA_fails_Rect memory _ _ (by omega) (by omega) hw2 hh2 hsz hm

theorem ExtrudeImage_fails_of_steps (memory : Int) (I : Image) (p : Nat)
    (h : ∀ k : Nat, k < p → ExtrudeImageOnce_fails memory (ExtrudeImage I (k : Int)) = false) :
    ExtrudeImage_fails memory I (p : Int) = false := by
  have key : ∀ k : Nat, k ≤ p →
      (List.range k).foldl (fun (st : Image × Bool) (_ : Nat) =>
        if (st.2 || ExtrudeImageOnce_fails memory st.1) = true then (st.1, true)
        else (ExtrudeImageOnce st.1, false)) (I, false) = (ExtrudeImage I (k : Int), false) := by
    intro k
    induction k with
    | zero => intro _; rfl
    | succ j ih =>
      intro hj
      rw [List.range_succ, List.foldl_append, ih (by omega)]
      simp only [List.foldl_cons, List.foldl_nil, Bool.false_or, h j (by omega)]
      rw [ExtrudeImage_succ]
      rfl
  unfold ExtrudeImage_fails
  rw [forRange_natCast]
  exact congrArg Prod.snd (key p (le_refl p))

theorem ExtrudeImageOnce_At_zero (I : Image) (hz : ∀ x y : Int, I.At x y = Color.zero)
    (a b : Int) : (ExtrudeImageOnce I).At a b = Color.zero := by
  simp only [ExtrudeImageOnce, NRGBA.toImage, NRGBA.At, forRange_row_Rect, forRange_col_Rect,
    Set_Rect, Draw_Rect, forRange_row_Pix, forRange_col_Pix, Set_Pix, Draw_Pix, NewNRGBA, hz,
    ite_self]

theorem ExtrudeImage_At_zero (I : Image) (hz : ∀ x y : Int, I.At x y = Color.zero) (p : Nat) :
    ∀ a b : Int, (ExtrudeImage I (p : Int)).At a b = Color.zero := by
  induction p with
  | zero => exact hz
  | succ k ih =>
    intro a b
    rw [ExtrudeImage_succ]
    exact ExtrudeImageOnce_At_zero _ ih a b

theorem NRGBA_At_zero_of_empty (N : NRGBA) (hz : N.Rect.Dx = 0 ∨ N.Rect.Dy = 0) (x y : Int) :
    N.toImage.At x y = Color.zero := by
  show NRGBA.At N x y = Color.zero
  unfold NRGBA.At
  rw [if_neg]
  rw [In_iff]
  simp only [Rectangle.Dx, Rectangle.Dy] at hz
  omega

set_option maxRecDepth 100000

/-! ## Claims -/

/-- Counterexample to C1: with padding 0, the sprite `wide.png` (`2^53 + 1` wide, no pixel)
followed by `b.png`: the names are distinct and the bounds start at (0,0), the claimed
`X` of `b.png` is `2^53 + 1`, and the manifest holds `2^53`, the `float64` next to it. -/
theorem Pack_frame_rect_rounded :
    (mapGet (Pack ([spriteWide] ++ spriteB :: []) 1024 32 0).2.Frames spriteB.filename).map
        (fun f => f.Frame) = some ⟨9007199254740992, 0, 2, 2⟩ ∧
    (0 : Int) + ([spriteWide].map (fun T => T.img.Bounds.Dx + 2 * (0 : Int))).sum =
      9007199254740993 ∧
    (mapGet (Pack ([spriteWide] ++ spriteB :: []) 1024 32 0).2.Frames spriteB.filename).map
        (fun f => f.Frame) ≠
      some ⟨(0 : Int) + ([spriteWide].map (fun T => T.img.Bounds.Dx + 2 * (0 : Int))).sum, 0,
        spriteB.img.Bounds.Dx, spriteB.img.Bounds.Dy⟩ := by
  decide

/-- C1, amended: for sprites with pairwise distinct names and bounds starting at (0,0), any
padding `p ≥ 0` and any canvas size, when the block of the sprite `S` placed after the
sprites `pre` ends below `2^53` in both directions (`Σ (width T + 2p)` over `pre` plus
`width S + 2p`, and `height S + 2p`), the manifest returned by `Pack` holds for `S` the
frame rectangle `X = p + Σ (width T + 2p)` over `T` in `pre`, `Y = p`, `W = width S`,
`H = height S`. -/
theorem Pack_frame_rect (pre post : List ImageData) (S : ImageData) (width height : Int)
    (p : Nat) (hn : ((pre ++ S :: post).map (fun T => T.filename)).Nodup)
    (h0 : ∀ T ∈ pre ++ S :: post, T.img.Bounds.Min = ⟨0, 0⟩ ∧ 0 ≤ T.img.Bounds.Max.X ∧
      0 ≤ T.img.Bounds.Max.Y)
    (hb : (pre.map (fun T => T.img.Bounds.Dx + 2 * (p : Int))).sum + S.img.Bounds.Dx + 2 * p <
      9007199254740992)
    (hbh : S.img.Bounds.Dy + 2 * p < 9007199254740992) :
    (mapGet (Pack (pre ++ S :: post) width height (p : Int)).2.Frames S.filename).map
        (fun f => f.Frame) =
      some
        { X := p + (pre.map (fun T => T.img.Bounds.Dx + 2 * (p : Int))).sum
          Y := p
          W := S.img.Bounds.Dx
          H := S.img.Bounds.Dy } := by
  have hpost : S.filename ∉ post.map (fun T => T.filename) := by
    rw [List.map_append, List.map_cons] at hn
    exact (List.nodup_cons.mp (List.nodup_append.mp hn).2.1).1
  have hpre := wellFormed_of_origin pre (fun T hT => h0 T (List.mem_append_left _ hT))
  have hS := h0 S (List.mem_append_right _ (List.mem_cons_self _ _))
  have he := foldl_packStep_entry pre post S width height p hpost hpre hS hb hbh
  show (mapGet ((pre ++ S :: post).foldl (packStep (p : Int))
    (packInit width height)).data.Frames S.filename).map (fun f => f.Frame) = _
  rw [he]
  rfl

/-- Witness of C1, amended: the scenario of the two 2 x 2 sprites `a.png`, `b.png` with
padding 1 on a 1024 x 32 canvas; the frame of `b.png` is `{X:5, Y:1, W:2, H:2}`. -/
theorem Pack_frame_rect_witness :
    (mapGet (Pack ([spriteA] ++ spriteB :: []) 1024 32 ((1 : Nat) : Int)).2.Frames
        spriteB.filename).map (fun f => f.Frame) =
      some ⟨5, 1, 2, 2⟩ :=
  Pack_frame_rect [spriteA] [] spriteB 1024 32 1 (by decide) (by decide) (by decide)
    (by decide)

/-- C2: the keys of the manifest's `Frames` map returned by `Pack` are exactly the sprite
names of the input, each key occurs once, and when the names are pairwise distinct the map
has as many entries as there are sprites. -/
theorem Pack_keys (images : List ImageData) (width height extrude : Int) :
    (∀ k : String, k ∈ mapKeys (Pack images width height extrude).2.Frames ↔
      k ∈ images.map (fun T => T.filename)) ∧
    (mapKeys (Pack images width height extrude).2.Frames).Nodup ∧
    ((images.map (fun T => T.filename)).Nodup →
      (Pack images width height extrude).2.Frames.length = images.length) := by
  refine ⟨fun k => ?_, ?_, fun hn => ?_⟩
  · show k ∈ mapKeys (images.foldl (packStep extrude) (packInit width height)).data.Frames ↔ _
    rw [foldl_packStep_mapKeys]
    simp [packInit, mapKeys]
  · exact foldl_packStep_nodup extrude images _ (by simp [packInit, mapKeys])
  · show (images.foldl (packStep extrude) (packInit width height)).data.Frames.length = _
    rw [foldl_packStep_length extrude images hn _ (by simp [packInit, mapKeys])]
    simp [packInit]

/-- Witness of C2: two sprites with distinct names give a map of two entries. -/
theorem Pack_keys_witness :
    (Pack [spriteA, spriteB] 1024 32 1).2.Frames.length = 2 :=
  (Pack_keys [spriteA, spriteB] 1024 32 1).2.2 (by decide)

/-- C3: for every source image `I` (a well-formed rectangle of any origin) and every padding
`p ≥ 0`, `ExtrudeImage I p` has width `width I + 2p` and height `height I + 2p`. -/
theorem ExtrudeImage_size (I : Image) (p : Nat)
    (hx : I.Bounds.Min.X ≤ I.Bounds.Max.X) (hy : I.Bounds.Min.Y ≤ I.Bounds.Max.Y) :
    (ExtrudeImage I (p : Int)).Bounds.Dx = I.Bounds.Dx + 2 * p ∧
    (ExtrudeImage I (p : Int)).Bounds.Dy = I.Bounds.Dy + 2 * p :=
  (ExtrudeImage_wellFormed_dims I hx hy p).2

/-- Witness of C3: a 2 x 3 image extruded by 2 is 6 x 7. -/
theorem ExtrudeImage_size_witness :
    (ExtrudeImage (gradient 2 3) ((2 : Nat) : Int)).Bounds.Dx = 2 + 2 * ((2 : Nat) : Int) ∧
    (ExtrudeImage (gradient 2 3) ((2 : Nat) : Int)).Bounds.Dy = 3 + 2 * ((2 : Nat) : Int) :=
  ExtrudeImage_size (gradient 2 3) 2 (by decide) (by decide)

/-- C4: for every source image `I` with bounds starting at (0,0) and every padding `p ≥ 0`,
the pixel of `ExtrudeImage I p` at `(x + p, y + p)` is the pixel of `I` at `(x, y)`, for all
`0 ≤ x < width I` and `0 ≤ y < height I`. -/
theorem ExtrudeImage_interior (I : Image) (p : Nat) (hmin : I.Bounds.Min = ⟨0, 0⟩)
    (x y : Int) (hx : 0 ≤ x ∧ x < I.Bounds.Dx) (hy : 0 ≤ y ∧ y < I.Bounds.Dy) :
    (ExtrudeImage I (p : Int)).At (x + p) (y + p) = I.At x y := by
  rw [ExtrudeImage_At_mid I _ _ (bounds_of_origin I hmin) (by omega) (by omega) p _ _
    (by omega) (by omega)]
  congr 1 <;> omega

/-- Witness of C4: pixel (1, 2) of a 2 x 3 image sits at (3, 4) after extrusion by 2. -/
theorem ExtrudeImage_interior_witness :
    (ExtrudeImage (gradient 2 3) ((2 : Nat) : Int)).At (1 + ((2 : Nat) : Int))
        (2 + ((2 : Nat) : Int)) = (gradient 2 3).At 1 2 :=
  ExtrudeImage_interior (gradient 2 3) 2 (by decide) 1 2 (by decide) (by decide)

/-- C5, at a failing input: for the 2 x 1 image `gradient 2 1` and padding 1 the
bottom-right corner pixel (3, 2) of the extruded image is the zero colour, not the source
corner pixel (1, 0); the three other corners equal their source corners. The right-column
loop of `ExtrudeImageOnce` runs over the width instead of the height and overwrites the
corner with a pixel read below the source. -/
theorem ExtrudeImage_corner_wide :
    (ExtrudeImage (gradient 2 1) 1).At 3 2 = Color.zero ∧
    (gradient 2 1).At 1 0 = ⟨2, 1, 0, 255⟩ ∧
    (ExtrudeImage (gradient 2 1) 1).At 3 2 ≠ (gradient 2 1).At 1 0 ∧
    (ExtrudeImage (gradient 2 1) 1).At 0 0 = (gradient 2 1).At 0 0 ∧
    (ExtrudeImage (gradient 2 1) 1).At 3 0 = (gradient 2 1).At 1 0 ∧
    (ExtrudeImage (gradient 2 1) 1).At 0 2 = (gradient 2 1).At 0 0 := by
  decide

/-- C6, at a failing input: for the 1 x 2 image `gradient 1 2` and padding 1 the pixel
(2, 2) of the right padding band is the zero colour, not the source edge pixel (0, 1); the
pixel (2, 1) above it and the left band are filled. The right-column loop of
`ExtrudeImageOnce` stops after `width` rows. -/
theorem ExtrudeImage_right_band_tall :
    (ExtrudeImage (gradient 1 2) 1).At 2 2 = Color.zero ∧
    (gradient 1 2).At 0 1 = ⟨1, 2, 0, 255⟩ ∧
    (ExtrudeImage (gradient 1 2) 1).At 2 2 ≠ (gradient 1 2).At 0 1 ∧
    (ExtrudeImage (gradient 1 2) 1).At 2 1 = (gradient 1 2).At 0 0 ∧
    (ExtrudeImage (gradient 1 2) 1).At 0 1 = (gradient 1 2).At 0 0 ∧
    (ExtrudeImage (gradient 1 2) 1).At 0 2 = (gradient 1 2).At 0 1 := by
  decide

/-- Counterexample to C7: the 2 x 2 sub-image at (1, 1) is non-empty, and with padding 1 the
pixel (1, 0) of the top band of its extrusion is the zero colour, not the first pixel of the
source edge row, which is the pixel at (1, 1) of the sub-image. -/
theorem ExtrudeImage_top_band_subImage :
    subImage.Bounds = ⟨⟨1, 1⟩, ⟨3, 3⟩⟩ ∧
    (ExtrudeImage subImage 1).At 1 0 = Color.zero ∧
    subImage.At subImage.Bounds.Min.X subImage.Bounds.Min.Y = ⟨1, 1, 0, 255⟩ ∧
    (ExtrudeImage subImage 1).At 1 0 ≠
      subImage.At subImage.Bounds.Min.X subImage.Bounds.Min.Y := by
  decide

/-- C7, amended: for every non-empty source image `I` of size `w x h` with bounds starting
at (0,0) and every padding `p`, in every column `p ≤ x < p + w` of `ExtrudeImage I p` the
pixels of the top band `0 ≤ y < p` equal `I (x - p, 0)` and the pixels of the bottom band
`p + h ≤ y < h + 2p` equal `I (x - p, h - 1)`. -/
theorem ExtrudeImage_top_bottom (I : Image) (p : Nat) (hmin : I.Bounds.Min = ⟨0, 0⟩)
    (hw : 1 ≤ I.Bounds.Dx) (hh : 1 ≤ I.Bounds.Dy) (x : Int)
    (hx : p ≤ x ∧ x < p + I.Bounds.Dx) :
    (∀ y : Int, 0 ≤ y ∧ y < p → (ExtrudeImage I (p : Int)).At x y = I.At (x - p) 0) ∧
    (∀ y : Int, p + I.Bounds.Dy ≤ y ∧ y < I.Bounds.Dy + 2 * p →
      (ExtrudeImage I (p : Int)).At x y = I.At (x - p) (I.Bounds.Dy - 1)) := by
  have hb := bounds_of_origin I hmin
  constructor
  · intro y hy
    rw [ExtrudeImage_At_mid I _ _ hb (by omega) hh p x y hx (by omega)]
    congr 1
    omega
  · intro y hy
    rw [ExtrudeImage_At_mid I _ _ hb (by omega) hh p x y hx (by omega)]
    congr 1
    omega

/-- Witness of C7, amended: a 2 x 3 image extruded by 2, column 3: rows 0, 1 repeat the source pixel
(1, 0) and rows 5, 6 repeat the source pixel (1, 2). -/
theorem ExtrudeImage_top_bottom_witness :
    (∀ y : Int, 0 ≤ y ∧ y < ((2 : Nat) : Int) →
      (ExtrudeImage (gradient 2 3) ((2 : Nat) : Int)).At 3 y =
        (gradient 2 3).At (3 - ((2 : Nat) : Int)) 0) ∧
    (∀ y : Int, ((2 : Nat) : Int) + (gradient 2 3).Bounds.Dy ≤ y ∧
        y < (gradient 2 3).Bounds.Dy + 2 * ((2 : Nat) : Int) →
      (ExtrudeImage (gradient 2 3) ((2 : Nat) : Int)).At 3 y =
        (gradient 2 3).At (3 - ((2 : Nat) : Int)) ((gradient 2 3).Bounds.Dy - 1)) :=
  ExtrudeImage_top_bottom (gradient 2 3) 2 (by decide) (by decide) (by decide) 3 (by decide)

/-- Counterexample to C8: with padding 0, `a.png` (2 x 2), four sprites
`image.NewNRGBA(image.Rect(0, 0, 2^62 - 1, 0))` and `c.png` (4 x 2), all with distinct
names and bounds starting at (0,0): the cursor before `c.png` has wrapped to -2, the frame
of `a.png` is `{X:0, Y:0, W:2, H:2}`, inside the canvas, and the atlas pixel (0, 0) is
pixel (2, 0) of `c.png`, not pixel (0, 0) of `a.png`. -/
theorem Pack_round_trip_wrapped :
    mapGet (Pack wrapSprites 1024 32 0).2.Frames "a.png" =
      some ⟨⟨0, 0, 2, 2⟩, false, false, ⟨0, 0, 0, 0⟩, ⟨0, 0⟩, ⟨0, 0⟩⟩ ∧
    ((wrapSprites.take 5).foldl (packStep 0) (packInit 1024 32)).currentPos = ⟨-2, 0⟩ ∧
    (Pack wrapSprites 1024 32 0).1.At (0 + 0) (0 + 0) = spriteC.img.At 2 0 ∧
    (Pack wrapSprites 1024 32 0).1.At (0 + 0) (0 + 0) ≠ spriteA.img.At 0 0 := by
  decide

/-- C8, amended: for sprites with pairwise distinct names and bounds starting at (0,0) and
any padding `p ≥ 0`, when the total of the extruded widths `width T + 2p` of all the sprites
and the extruded height `height S + 2p` are below `2^53`, the atlas returned by `Pack` holds
the content of the sprite `S` at the frame `f` recorded for it:
`atlas (f.X + u, f.Y + v) = S (u, v)` for `0 ≤ u < f.W`, `0 ≤ v < f.H`, at every such pixel
that lies inside the canvas. -/
theorem Pack_round_trip (pre post : List ImageData) (S : ImageData) (width height : Int)
    (p : Nat) (hn : ((pre ++ S :: post).map (fun T => T.filename)).Nodup)
    (h0 : ∀ T ∈ pre ++ S :: post, T.img.Bounds.Min = ⟨0, 0⟩ ∧ 0 ≤ T.img.Bounds.Max.X ∧
      0 ≤ T.img.Bounds.Max.Y)
    (htot : ((pre ++ S :: post).map (fun T => T.img.Bounds.Dx + 2 * (p : Int))).sum <
      9007199254740992)
    (hbh : S.img.Bounds.Dy + 2 * p < 9007199254740992)
    (f : SerializedFrame)
    (hf : mapGet (Pack (pre ++ S :: post) width height (p : Int)).2.Frames S.filename = some f)
    (u v : Int) (hu : 0 ≤ u ∧ u < f.Frame.W) (hv : 0 ≤ v ∧ v < f.Frame.H)
    (hin : Point.In ⟨f.Frame.X + u, f.Frame.Y + v⟩
      (Pack (pre ++ S :: post) width height (p : Int)).1.Bounds = true) :
    (Pack (pre ++ S :: post) width height (p : Int)).1.At (f.Frame.X + u) (f.Frame.Y + v) =
      S.img.At u v := by
  have hpost : S.filename ∉ post.map (fun T => T.filename) := by
    rw [List.map_append, List.map_cons] at hn
    exact (List.nodup_cons.mp (List.nodup_append.mp hn).2.1).1
  have hpre := wellFormed_of_origin pre (fun T hT => h0 T (List.mem_append_left _ hT))
  have hwpost := wellFormed_of_origin post
    (fun T hT => h0 T (List.mem_append_right _ (List.mem_cons_of_mem _ hT)))
  have hS := h0 S (List.mem_append_right _ (List.mem_cons_self _ _))
  have hn2 := sum_widths_nonneg p post hwpost
  have hb : (pre.map (fun T => T.img.Bounds.Dx + 2 * (p : Int))).sum + S.img.Bounds.Dx +
      2 * p < 9007199254740992 := by
    simp only [List.map_append, List.map_cons, List.sum_append, List.sum_cons] at htot
    omega
  have he := foldl_packStep_entry pre post S width height p hpost hpre hS hb hbh
  have hf2 : mapGet ((pre ++ S :: post).foldl (packStep (p : Int))
      (packInit width height)).data.Frames S.filename = some f := hf
  rw [he] at hf2
  have hfe := (Option.some.inj hf2).symm
  subst hfe
  have hRect := foldl_packStep_Rect (p : Int) (pre ++ S :: post) (packInit width height)
  have hin2 : Point.In ⟨p + (pre.map (fun T => T.img.Bounds.Dx + 2 * (p : Int))).sum + u, p + v⟩
      ((pre ++ S :: post).foldl (packStep (p : Int)) (packInit width height)).atlas.Rect =
      true := hin
  show NRGBA.At ((pre ++ S :: post).foldl (packStep (p : Int)) (packInit width height)).atlas
    (p + (pre.map (fun T => T.img.Bounds.Dx + 2 * (p : Int))).sum + u) (p + v) = _
  unfold NRGBA.At
  rw [if_pos hin2]
  rw [hRect] at hin2
  exact foldl_packStep_content pre post S width height p h0 (by omega) (by omega) u v hu hv
    hin2

/-- Witness of C8, amended: in the scenario of C1 the atlas pixel (6, 2) is pixel (1, 1) of
`b.png`. -/
theorem Pack_round_trip_witness :
    (Pack ([spriteA] ++ spriteB :: []) 1024 32 ((1 : Nat) : Int)).1.At (5 + 1) (1 + 1) =
      spriteB.img.At 1 1 :=
  Pack_round_trip [spriteA] [] spriteB 1024 32 1 (by decide) (by decide) (by decide)
    (by decide) ⟨⟨5, 1, 2, 2⟩, false, false, ⟨0, 0, 0, 0⟩, ⟨0, 0⟩, ⟨0, 0⟩⟩ (by decide) 1 1
    (by decide) (by decide) (by decide)

/-- C9: `ExtrudeImage I 0` returns `I` itself: the same bounds and the same pixel at every
coordinate. -/
theorem ExtrudeImage_zero_id (I : Image) :
    ExtrudeImage I 0 = I ∧ (ExtrudeImage I 0).Bounds = I.Bounds ∧
      ∀ x y : Int, (ExtrudeImage I 0).At x y = I.At x y := by
  rw [ExtrudeImage_zero]
  exact ⟨rfl, rfl, fun _ _ => rfl⟩

/-- C10: `ExtrudeImage I (a + b) = ExtrudeImage (ExtrudeImage I a) b` for all `a, b ≥ 0`;
`ExtrudeImage I p` is `ExtrudeImageOnce` applied `p` times, and each application makes the
image 2 wider and 2 higher (one pixel on every side) and puts it at the origin. -/
theorem ExtrudeImage_add (I : Image) (a b : Nat)
    (hx : I.Bounds.Min.X ≤ I.Bounds.Max.X) (hy : I.Bounds.Min.Y ≤ I.Bounds.Max.Y) :
    ExtrudeImage I ((a + b : Nat) : Int) = ExtrudeImage (ExtrudeImage I (a : Int)) (b : Int) ∧
    (∀ p : Nat, ExtrudeImage I (p : Int) = ExtrudeImageOnce^[p] I) ∧
    (∀ p : Nat, (ExtrudeImage I ((p + 1 : Nat) : Int)).Bounds =
      ⟨⟨0, 0⟩, ⟨(ExtrudeImage I (p : Int)).Bounds.Dx + 2,
        (ExtrudeImage I (p : Int)).Bounds.Dy + 2⟩⟩) := by
  have hit : ∀ (J : Image) (p : Nat), ExtrudeImage J (p : Int) = ExtrudeImageOnce^[p] J := by
    intro J p
    induction p with
    | zero => rfl
    | succ k ih => rw [ExtrudeImage_succ, ih, Function.iterate_succ_apply']
  refine ⟨?_, hit I, fun p => ?_⟩
  · rw [hit, hit, hit, Nat.add_comm, Function.iterate_add_apply]
  · obtain ⟨⟨h1, h2⟩, -, -⟩ := ExtrudeImage_wellFormed_dims I hx hy p
    rw [ExtrudeImage_succ, ExtrudeImageOnce_Bounds _ h1 h2]

/-- Witness of C10: a 2 x 3 image, paddings 1 and 2. -/
theorem ExtrudeImage_add_witness :
    ExtrudeImage (gradient 2 3) ((1 + 2 : Nat) : Int) =
      ExtrudeImage (ExtrudeImage (gradient 2 3) ((1 : Nat) : Int)) ((2 : Nat) : Int) ∧
    (∀ p : Nat, ExtrudeImage (gradient 2 3) (p : Int) = ExtrudeImageOnce^[p] (gradient 2 3)) ∧
    (∀ p : Nat, (ExtrudeImage (gradient 2 3) ((p + 1 : Nat) : Int)).Bounds =
      ⟨⟨0, 0⟩, ⟨(ExtrudeImage (gradient 2 3) (p : Int)).Bounds.Dx + 2,
        (ExtrudeImage (gradient 2 3) (p : Int)).Bounds.Dy + 2⟩⟩) :=
  ExtrudeImage_add (gradient 2 3) 1 2 (by decide) (by decide)

/-- Counterexample to C11: with padding 0, four sprites 2^62 wide and 1 high followed by
`b.png` (2 x 2), all with bounds starting at (0,0): the cursor wraps to 0, and the pixel
(0, 0) lies in the destination block of the first sprite and in that of the fifth; the
frames recorded for `u1.png` and `b.png` both start at (0, 0). -/
theorem Pack_overlap_wrapped :
    ((overlapSprites.take 4).foldl (packStep 0) (packInit 1024 32)).currentPos = ⟨0, 0⟩ ∧
    Point.In ⟨0, 0⟩
      (destBounds 0 (([] : List ImageData).foldl (packStep 0) (packInit 1024 32))
        ⟨uniformWide, "u1.png"⟩) = true ∧
    Point.In ⟨0, 0⟩
      (destBounds 0 ((overlapSprites.take 4).foldl (packStep 0) (packInit 1024 32))
        ⟨gradient 2 2, "b.png"⟩) = true ∧
    (mapGet (Pack overlapSprites 1024 32 0).2.Frames "u1.png").map (fun f => f.Frame) =
      some ⟨0, 0, 4611686018427387904, 1⟩ ∧
    (mapGet (Pack overlapSprites 1024 32 0).2.Frames "b.png").map (fun f => f.Frame) =
      some ⟨0, 0, 2, 2⟩ := by
  decide

/-- C11, amended: for sprites with bounds starting at (0,0) and padding `p ≥ 0`, when the
total of the extruded widths `width T + 2p` of all the sprites is below `2^63`, the
destination block of the sprite `S` placed after `pre` spans the columns from the cursor
`c` (the sum of the extruded widths of `pre`) to `c + width S + 2p`, and the blocks of two
sprites at different places of the list share no pixel; when that total is below `2^53`,
the frame rectangles recorded under two different names share no pixel. -/
theorem Pack_no_overlap (images : List ImageData) (width height : Int) (p : Nat)
    (h0 : ∀ U ∈ images, U.img.Bounds.Min = ⟨0, 0⟩ ∧ 0 ≤ U.img.Bounds.Max.X ∧
      0 ≤ U.img.Bounds.Max.Y)
    (htot : (images.map (fun U => U.img.Bounds.Dx + 2 * (p : Int))).sum <
      9223372036854775808) :
    (∀ (pre mid post : List ImageData) (S T : ImageData),
      images = pre ++ S :: (mid ++ T :: post) →
        (destBounds (p : Int) (pre.foldl (packStep (p : Int)) (packInit width height))
            S).Min.X = (pre.map (fun U => U.img.Bounds.Dx + 2 * (p : Int))).sum ∧
        (destBounds (p : Int) (pre.foldl (packStep (p : Int)) (packInit width height))
            S).Max.X =
          (pre.map (fun U => U.img.Bounds.Dx + 2 * (p : Int))).sum + S.img.Bounds.Dx + 2 * p ∧
        ∀ x y : Int,
          ¬ (Point.In ⟨x, y⟩
              (destBounds (p : Int) (pre.foldl (packStep (p : Int)) (packInit width height))
                S) = true ∧
            Point.In ⟨x, y⟩
              (destBounds (p : Int)
                ((pre ++ S :: mid).foldl (packStep (p : Int)) (packInit width height))
                T) = true)) ∧
    ((images.map (fun U => U.img.Bounds.Dx + 2 * (p : Int))).sum < 9007199254740992 →
      ∀ (k1 k2 : String) (f1 f2 : SerializedFrame), k1 ≠ k2 →
        mapGet (Pack images width height (p : Int)).2.Frames k1 = some f1 →
        mapGet (Pack images width height (p : Int)).2.Frames k2 = some f2 →
        ∀ x y : Int,
          ¬ ((f1.Frame.X ≤ x ∧ x < f1.Frame.X + f1.Frame.W ∧
                f1.Frame.Y ≤ y ∧ y < f1.Frame.Y + f1.Frame.H) ∧
              (f2.Frame.X ≤ x ∧ x < f2.Frame.X + f2.Frame.W ∧
                f2.Frame.Y ≤ y ∧ y < f2.Frame.Y + f2.Frame.H))) := by
  constructor
  · intro pre mid post S T himg
    subst himg
    have hpre : ∀ U ∈ pre, _ := fun U hU => h0 U (List.mem_append_left _ hU)
    have hS := h0 S (List.mem_append_right _ (List.mem_cons_self _ _))
    have hmid : ∀ U ∈ mid, _ := fun U hU =>
      h0 U (List.mem_append_right _ (List.mem_cons_of_mem _ (List.mem_append_left _ hU)))
    have hT := h0 T (List.mem_append_right _ (List.mem_cons_of_mem _
      (List.mem_append_right _ (List.mem_cons_self _ _))))
    have hpost : ∀ U ∈ post, _ := fun U hU =>
      h0 U (List.mem_append_right _ (List.mem_cons_of_mem _
        (List.mem_append_right _ (List.mem_cons_of_mem _ hU))))
    have hpreS : ∀ U ∈ pre ++ S :: mid, U.img.Bounds.Min = ⟨0, 0⟩ ∧
        0 ≤ U.img.Bounds.Max.X ∧ 0 ≤ U.img.Bounds.Max.Y := by
      intro U hU
      rcases List.mem_append.mp hU with h | h
      · exact hpre U h
      · rcases List.mem_cons.mp h with h | h
        · rw [h]; exact hS
        · exact hmid U h
    have n1 := sum_widths_nonneg p pre (wellFormed_of_origin pre hpre)
    have n2 := sum_widths_nonneg p mid (wellFormed_of_origin mid hmid)
    have n3 := sum_widths_nonneg p post (wellFormed_of_origin post hpost)
    have dS : 0 ≤ S.img.Bounds.Dx := by
      have : S.img.Bounds.Min.X = 0 := by rw [hS.1]
      simp only [Rectangle.Dx]
      omega
    have dT : 0 ≤ T.img.Bounds.Dx := by
      have : T.img.Bounds.Min.X = 0 := by rw [hT.1]
      simp only [Rectangle.Dx]
      omega
    simp only [List.map_append, List.map_cons, List.sum_append, List.sum_cons] at htot
    have e1 := destBounds_columns pre S width height p hpre hS (by omega)
    have e2 := destBounds_columns (pre ++ S :: mid) T width height p hpreS hT (by
      simp only [List.map_append, List.map_cons, List.sum_append, List.sum_cons]
      omega)
    refine ⟨e1.1, e1.2, fun x y => ?_⟩
    rw [In_iff, In_iff, e1.1, e1.2, e2.1, e2.2]
    simp only [List.map_append, List.map_cons, List.sum_append, List.sum_cons]
    omega
  · intro htot53 k1 k2 f1 f2 hne hf1 hf2 x y
    obtain ⟨pre1, post1, S1, hi1, hk1, hX1, hW1⟩ :=
      frame_of_mapGet images width height p h0 htot53 k1 f1 hf1
    obtain ⟨pre2, post2, S2, hi2, hk2, hX2, hW2⟩ :=
      frame_of_mapGet images width height p h0 htot53 k2 f2 hf2
    have hS1 := h0 S1 (by rw [hi1]; exact List.mem_append_right _ (List.mem_cons_self _ _))
    have hS2 := h0 S2 (by rw [hi2]; exact List.mem_append_right _ (List.mem_cons_self _ _))
    have hd1 : 0 ≤ S1.img.Bounds.Dx := by
      have : S1.img.Bounds.Min.X = 0 := by rw [hS1.1]
      simp only [Rectangle.Dx]
      omega
    have hd2 : 0 ≤ S2.img.Bounds.Dx := by
      have : S2.img.Bounds.Min.X = 0 := by rw [hS2.1]
      simp only [Rectangle.Dx]
      omega
    rw [hX1, hX2, hW1, hW2]
    rcases split_two pre1 post1 pre2 post2 S1 S2 (hi1.symm.trans hi2)
      (by rw [hk1, hk2]; exact hne) with ⟨mid, hm⟩ | ⟨mid, hm⟩
    · have hmid := sum_widths_nonneg p mid (wellFormed_of_origin mid (fun U hU => h0 U (by
        rw [hi2, hm]
        exact List.mem_append_left _ (List.mem_append_right _ (List.mem_cons_of_mem _ hU)))))
      rw [hm]
      simp only [List.map_append, List.map_cons, List.sum_append, List.sum_cons]
      omega
    · have hmid := sum_widths_nonneg p mid (wellFormed_of_origin mid (fun U hU => h0 U (by
        rw [hi1, hm]
        exact List.mem_append_left _ (List.mem_append_right _ (List.mem_cons_of_mem _ hU)))))
      rw [hm]
      simp only [List.map_append, List.map_cons, List.sum_append, List.sum_cons]
      omega

/-- Witness of C11, amended: in the scenario of C1 the frames of `a.png` and `b.png` do not
both hold the pixel (4, 1). -/
theorem Pack_no_overlap_witness :
    mapGet (Pack [spriteA, spriteB] 1024 32 ((1 : Nat) : Int)).2.Frames "a.png" =
      some ⟨⟨1, 1, 2, 2⟩, false, false, ⟨0, 0, 0, 0⟩, ⟨0, 0⟩, ⟨0, 0⟩⟩ ∧
    mapGet (Pack [spriteA, spriteB] 1024 32 ((1 : Nat) : Int)).2.Frames "b.png" =
      some ⟨⟨5, 1, 2, 2⟩, false, false, ⟨0, 0, 0, 0⟩, ⟨0, 0⟩, ⟨0, 0⟩⟩ ∧
    ¬ (((1 : Int) ≤ 4 ∧ (4 : Int) < 1 + 2 ∧ (1 : Int) ≤ 1 ∧ (1 : Int) < 1 + 2) ∧
      ((5 : Int) ≤ 4 ∧ (4 : Int) < 5 + 2 ∧ (1 : Int) ≤ 1 ∧ (1 : Int) < 1 + 2)) :=
  ⟨by decide, by decide,
    (Pack_no_overlap [spriteA, spriteB] 1024 32 1 (by decide) (by decide)).2 (by decide)
      "a.png" "b.png"
      ⟨⟨1, 1, 2, 2⟩, false, false, ⟨0, 0, 0, 0⟩, ⟨0, 0⟩, ⟨0, 0⟩⟩
      ⟨⟨5, 1, 2, 2⟩, false, false, ⟨0, 0, 0, 0⟩, ⟨0, 0⟩, ⟨0, 0⟩⟩
      (by decide) (by decide) (by decide) 4 1⟩

/-- C12: for every input to `Pack`, every entry of the returned `Frames` map has `Rotated`
and `Trimmed` false and `SpriteSourceSize`, `SourceSize`, `Pivot` with all fields 0. -/
theorem Pack_placeholders (images : List ImageData) (width height extrude : Int) :
    ∀ e ∈ (Pack images width height extrude).2.Frames,
      e.2.Rotated = false ∧ e.2.Trimmed = false ∧ e.2.SpriteSourceSize = ⟨0, 0, 0, 0⟩ ∧
        e.2.SourceSize = ⟨0, 0⟩ ∧ e.2.Pivot = ⟨0, 0⟩ :=
  foldl_packStep_every_entry
    (fun f => f.Rotated = false ∧ f.Trimmed = false ∧ f.SpriteSourceSize = ⟨0, 0, 0, 0⟩ ∧
      f.SourceSize = ⟨0, 0⟩ ∧ f.Pivot = ⟨0, 0⟩)
    extrude (fun _ => ⟨rfl, rfl, rfl, rfl, rfl⟩) images (packInit width height)
    (fun e he => absurd he (List.not_mem_nil e))

/-- Witness of C12: the entry of `a.png` in the scenario of C1. -/
theorem Pack_placeholders_witness :
    (false = false ∧ false = false ∧ (⟨0, 0, 0, 0⟩ : SerializedRect) = ⟨0, 0, 0, 0⟩ ∧
      (⟨0, 0⟩ : SerializedDim) = ⟨0, 0⟩ ∧ (⟨0, 0⟩ : SerializedPos) = ⟨0, 0⟩) ∧
    (("a.png", ⟨⟨1, 1, 2, 2⟩, false, false, ⟨0, 0, 0, 0⟩, ⟨0, 0⟩, ⟨0, 0⟩⟩) :
      String × SerializedFrame) ∈ (Pack [spriteA, spriteB] 1024 32 1).2.Frames :=
  ⟨Pack_placeholders [spriteA, spriteB] 1024 32 1
      ("a.png", ⟨⟨1, 1, 2, 2⟩, false, false, ⟨0, 0, 0, 0⟩, ⟨0, 0⟩, ⟨0, 0⟩⟩) (by decide),
    by decide⟩

/-- Counterexample to C13: for the empty list and the canvas `2^32 x 2^32`, whose buffer
length `4 * 2^32 * 2^32` does not fit an `int`, `Pack` does not return, even with the
largest `memory`: the size check of `image.NewNRGBA` panics. -/
theorem Pack_nil_fails :
    (0 : Int) ≤ 4294967296 ∧
    Pack_fails 9223372036854775807 [] 4294967296 4294967296 1 = true := by
  decide

/-- C13, amended: for the empty list of sprites, every padding and every canvas
`width, height ≥ 0` that passes the size check of `image.NewNRGBA` (`width < 2^62`,
`height < 2^63` and `4 * width * height < 2^63`) and whose buffer of `4 * width * height`
bytes can be allocated (at most `memory`), `Pack` returns, and it returns a manifest whose
`Frames` map is empty and a canvas with bounds `(0,0)-(width,height)` whose every pixel is
the zero colour. -/
theorem Pack_nil (memory width height extrude : Int) (hw : 0 ≤ width) (hh : 0 ≤ height)
    (hw2 : width < 4611686018427387904) (hh2 : height < 9223372036854775808)
    (hsz : 4 * width * height < 9223372036854775808) (hm : 4 * width * height ≤ memory) :
    Pack_fails memory [] width height extrude = false ∧
    (Pack [] width height extrude).2.Frames = [] ∧
    (Pack [] width height extrude).1.Bounds = ⟨⟨0, 0⟩, ⟨width, height⟩⟩ ∧
    (Pack [] width height extrude).1.Bounds.Dx = width ∧
    (Pack [] width height extrude).1.Bounds.Dy = height ∧
    ∀ x y : Int, (Pack [] width height extrude).1.At x y = Color.zero := by
  have hB : (Pack [] width height extrude).1.Bounds = ⟨⟨0, 0⟩, ⟨width, height⟩⟩ :=
    Rect_of_nonneg width height hw hh
  refine ⟨?_, rfl, hB, ?_, ?_, fun x y => ?_⟩
  · unfold Pack_fails
    rw [NewNRGBA_fails_Rect memory width height hw hh hw2 hh2 hsz hm]
    rfl
  · rw [hB]; simp [Rectangle.Dx]
  · rw [hB]; simp [Rectangle.Dy]
  · show NRGBA.At (NewNRGBA (Rect 0 0 width height)) x y = Color.zero
    unfold NRGBA.At NewNRGBA
    split <;> rfl

/-- Witness of C13, amended: the default 1024 x 32 canvas with padding 1, 128 KiB of
memory. -/
theorem Pack_nil_witness :
    Pack_fails 131072 [] 1024 32 1 = false ∧
    (Pack [] 1024 32 1).2.Frames = [] ∧
    (Pack [] 1024 32 1).1.Bounds = ⟨⟨0, 0⟩, ⟨1024, 32⟩⟩ ∧
    (Pack [] 1024 32 1).1.Bounds.Dx = 1024 ∧
    (Pack [] 1024 32 1).1.Bounds.Dy = 32 ∧
    ∀ x y : Int, (Pack [] 1024 32 1).1.At x y = Color.zero :=
  Pack_nil 131072 1024 32 1 (by decide) (by decide) (by decide) (by decide) (by decide)
    (by decide)

/-- Counterexample to C14: `ExtrudeImage` of the empty 0 x 0 NRGBA image with padding 1
does not fail (16 bytes of memory are enough); it returns a 2 x 2 image whose four pixels
are the zero colour. -/
theorem ExtrudeImage_zero_area_returns :
    (gradient 0 0).Bounds.Dx = 0 ∧ (gradient 0 0).Bounds.Dy = 0 ∧
    ExtrudeImage_fails 16 (gradient 0 0) 1 = false ∧
    (ExtrudeImage (gradient 0 0) 1).Bounds = ⟨⟨0, 0⟩, ⟨2, 2⟩⟩ ∧
    (ExtrudeImage (gradient 0 0) 1).At 0 0 = Color.zero ∧
    (ExtrudeImage (gradient 0 0) 1).At 1 0 = Color.zero ∧
    (ExtrudeImage (gradient 0 0) 1).At 0 1 = Color.zero ∧
    (ExtrudeImage (gradient 0 0) 1).At 1 1 = Color.zero := by
  decide

/-- C14, amended: `ExtrudeImage` applied to a zero-area NRGBA source image (width 0 or
height 0) with padding `p ≥ 1` does not fail when the extruded image passes the size check
of `image.NewNRGBA` (`4 * (width + 2p) * (height + 2p) < 2^63`) and can be allocated (that
many bytes are at most `memory`): it returns an image with bounds
`(0,0)-(width + 2p, height + 2p)` whose every pixel is the zero colour. -/
theorem ExtrudeImage_zero_area (memory : Int) (N : NRGBA) (p : Nat)
    (hx : N.Rect.Min.X ≤ N.Rect.Max.X) (hy : N.Rect.Min.Y ≤ N.Rect.Max.Y)
    (hz : N.Rect.Dx = 0 ∨ N.Rect.Dy = 0) (hp : 1 ≤ p)
    (hsz : 4 * (N.Rect.Dx + 2 * p) * (N.Rect.Dy + 2 * p) < 9223372036854775808)
    (hm : 4 * (N.Rect.Dx + 2 * p) * (N.Rect.Dy + 2 * p) ≤ memory) :
    ExtrudeImage_fails memory N.toImage (p : Int) = false ∧
    (ExtrudeImage N.toImage (p : Int)).Bounds =
      ⟨⟨0, 0⟩, ⟨N.Rect.Dx + 2 * p, N.Rect.Dy + 2 * p⟩⟩ ∧
    ∀ x y : Int, (ExtrudeImage N.toImage (p : Int)).At x y = Color.zero := by
  have hdx : 0 ≤ N.Rect.Dx := by simp only [Rectangle.Dx]; omega
  have hdy : 0 ≤ N.Rect.Dy := by simp only [Rectangle.Dy]; omega
  have hA : 4 * (N.Rect.Dx + 2 * p) * 2 ≤ 4 * (N.Rect.Dx + 2 * p) * (N.Rect.Dy + 2 * p) :=
    Int.mul_le_mul_of_nonneg_left (by omega) (by omega)
  refine ⟨?_, ExtrudeImage_Bounds_pos N.toImage hx hy p hp, ExtrudeImage_At_zero N.toImage
    (NRGBA_At_zero_of_empty N hz) p⟩
  apply ExtrudeImage_fails_of_steps
  intro k hk
  obtain ⟨-, h3, h4⟩ := ExtrudeImage_wellFormed_dims N.toImage hx hy k
  have e3 : (ExtrudeImage N.toImage (k : Int)).Bounds.Dx = N.Rect.Dx + 2 * k := h3
  have e4 : (ExtrudeImage N.toImage (k : Int)).Bounds.Dy = N.Rect.Dy + 2 * k := h4
  have hk2 : (k : Int) + 1 ≤ p := by omega
  have hB : 4 * (N.Rect.Dx + 2 * k + 2) * (N.Rect.Dy + 2 * k + 2) ≤
      4 * (N.Rect.Dx + 2 * p) * (N.Rect.Dy + 2 * p) :=
    Int.mul_le_mul (by omega) (by omega) (by omega) (by omega)
  have hC : 4 * (N.Rect.Dx + 2 * k + 2) * 2 ≤
      4 * (N.Rect.Dx + 2 * k + 2) * (N.Rect.Dy + 2 * k + 2) :=
    Int.mul_le_mul_of_nonneg_left (by omega) (by omega)
  have hD : 4 * 2 * (N.Rect.Dy + 2 * k + 2) ≤
      4 * (N.Rect.Dx + 2 * k + 2) * (N.Rect.Dy + 2 * k + 2) :=
    Int.mul_le_mul_of_nonneg_right (by omega) (by omega)
  apply ExtrudeImageOnce_fails_of_small
  · rw [e3]; omega
  · rw [e4]; omega
  · rw [e3]; omega
  · rw [e4]; omega
  · rw [e3, e4]; omega
  · rw [e3, e4]; omega

/-- Witness of C14, amended: a 0 x 3 NRGBA image with padding 2, 112 bytes of memory. -/
theorem ExtrudeImage_zero_area_witness :
    ExtrudeImage_fails 112 (NewNRGBA (Rect 0 0 0 3)).toImage ((2 : Nat) : Int) = false ∧
    (ExtrudeImage (NewNRGBA (Rect 0 0 0 3)).toImage ((2 : Nat) : Int)).Bounds =
      ⟨⟨0, 0⟩, ⟨(NewNRGBA (Rect 0 0 0 3)).Rect.Dx + 2 * ((2 : Nat) : Int),
        (NewNRGBA (Rect 0 0 0 3)).Rect.Dy + 2 * ((2 : Nat) : Int)⟩⟩ ∧
    ∀ x y : Int,
      (ExtrudeImage (NewNRGBA (Rect 0 0 0 3)).toImage ((2 : Nat) : Int)).At x y = Color.zero :=
  ExtrudeImage_zero_area 112 (NewNRGBA (Rect 0 0 0 3)) 2 (by decide) (by decide) (by decide)
    (by decide) (by decide) (by decide)

/-- C15: when the sprite `S` is the last of the list that carries its name, the manifest
returned by `Pack` holds exactly one entry under that name, and it is the frame computed in
the iteration of `S`: the bounds of `S` moved by the cursor and by the padding (Go `int`
sums, stored as `float64`), where the cursor is the sum of the extruded widths of all the
sprites before `S`, overwritten ones included; the cursor after the loop is the sum over
all the sprites. -/
theorem Pack_last_writer_wins (pre post : List ImageData) (S : ImageData)
    (width height extrude : Int) (hlast : S.filename ∉ post.map (fun T => T.filename)) :
    mapGet (Pack (pre ++ S :: post) width height extrude).2.Frames S.filename =
      some
        { Frame :=
            { X := float64 (wrapInt (S.img.Bounds.Min.X +
                (pre.map (fun T => (ExtrudeImage T.img extrude).Bounds.Dx)).sum + extrude))
              Y := float64 (wrapInt (S.img.Bounds.Min.Y + extrude))
              W := float64 (wrapInt S.img.Bounds.Dx)
              H := float64 (wrapInt S.img.Bounds.Dy) }
          Rotated := false
          Trimmed := false
          SpriteSourceSize := ⟨0, 0, 0, 0⟩
          SourceSize := ⟨0, 0⟩
          Pivot := ⟨0, 0⟩ } ∧
    (mapKeys (Pack (pre ++ S :: post) width height extrude).2.Frames).count S.filename = 1 ∧
    ((pre ++ S :: post).foldl (packStep extrude) (packInit width height)).currentPos =
      ⟨wrapInt ((pre ++ S :: post).map (fun T => (ExtrudeImage T.img extrude).Bounds.Dx)).sum,
        0⟩ := by
  refine ⟨foldl_packStep_entry_any pre post S width height extrude hlast, ?_, ?_⟩
  · apply List.count_eq_one_of_mem
    · exact foldl_packStep_nodup extrude _ _ (by simp [packInit, mapKeys])
    · show S.filename ∈ mapKeys ((pre ++ S :: post).foldl (packStep extrude)
        (packInit width height)).data.Frames
      rw [foldl_packStep_mapKeys]
      right
      simp
  · rw [foldl_packStep_currentPos_any _ _ _ (by simp only [packInit]; rfl)]
    simp [packInit]

/-- Witness of C15: `a.png` (2 x 2), a second `a.png` (3 x 1), then `b.png`, padding 1: the
entry of `a.png` is the frame of the second one, at X = 5. -/
theorem Pack_last_writer_wins_witness :
    (mapGet (Pack ([spriteA] ++ spriteA2 :: [spriteB]) 1024 32 1).2.Frames "a.png").map
        (fun f => f.Frame) = some ⟨5, 1, 3, 1⟩ ∧
    (mapKeys (Pack ([spriteA] ++ spriteA2 :: [spriteB]) 1024 32 1).2.Frames).count "a.png" =
      1 :=
  ⟨congrArg (Option.map (fun f => f.Frame))
      (Pack_last_writer_wins [spriteA] [spriteB] spriteA2 1024 32 1 (by decide)).1,
    (Pack_last_writer_wins [spriteA] [spriteB] spriteA2 1024 32 1 (by decide)).2.1⟩

/-- C16: for every square source image `I` (`n x n`, `n ≥ 1`, bounds starting at (0,0)) and
every padding `p ≥ 0`, `ExtrudeImage I p` has bounds `(0,0)-(n + 2p, n + 2p)` and agrees
with the clamp-to-edge reference at every pixel `0 ≤ x, y < n + 2p`. -/
theorem ExtrudeImage_refines_clampToEdge (I : Image) (n : Int) (p : Nat)
    (hb : I.Bounds = ⟨⟨0, 0⟩, ⟨n, n⟩⟩) (hn : 1 ≤ n) :
    (ExtrudeImage I (p : Int)).Bounds = ⟨⟨0, 0⟩, ⟨n + 2 * p, n + 2 * p⟩⟩ ∧
    ∀ x y : Int, 0 ≤ x ∧ x < n + 2 * p → 0 ≤ y ∧ y < n + 2 * p →
      (ExtrudeImage I (p : Int)).At x y = clampToEdge I (p : Int) x y := by
  refine ⟨ExtrudeImage_Bounds I n n hb (by omega) (by omega) p, fun x y hx hy => ?_⟩
  have hd : I.Bounds.Dx = n ∧ I.Bounds.Dy = n := by
    rw [hb]; simp [Rectangle.Dx, Rectangle.Dy]
  unfold clampToEdge
  rw [ExtrudeImage_At_square I n hb hn p x y hx hy, hd.1, hd.2,
    clamp_eq _ _ _ (by omega), clamp_eq _ _ _ (by omega)]

/-- Witness of C16: the 2 x 2 image `gradient 2 2` with padding 2. -/
theorem ExtrudeImage_refines_clampToEdge_witness :
    (ExtrudeImage (gradient 2 2) ((2 : Nat) : Int)).Bounds =
      ⟨⟨0, 0⟩, ⟨2 + 2 * ((2 : Nat) : Int), 2 + 2 * ((2 : Nat) : Int)⟩⟩ ∧
    ∀ x y : Int, 0 ≤ x ∧ x < 2 + 2 * ((2 : Nat) : Int) → 0 ≤ y ∧ y < 2 + 2 * ((2 : Nat) : Int) →
      (ExtrudeImage (gradient 2 2) ((2 : Nat) : Int)).At x y =
        clampToEdge (gradient 2 2) ((2 : Nat) : Int) x y :=
  ExtrudeImage_refines_clampToEdge (gradient 2 2) 2 2 (by decide) (by decide)

/-- C17: for every non-empty image `I` of size `w x h` with bounds starting at (0,0), in the
right padding column of `ExtrudeImageOnce I` the pixel `(w + 1, y)`, `1 ≤ y ≤ h`, equals
`I (w - 1, y - 1)` when `y ≤ w` and is the zero colour when `y > w`. -/
theorem ExtrudeImageOnce_right_column (I : Image) (hmin : I.Bounds.Min = ⟨0, 0⟩)
    (hw : 1 ≤ I.Bounds.Dx) (hh : 1 ≤ I.Bounds.Dy) (y : Int) (hy : 1 ≤ y ∧ y ≤ I.Bounds.Dy) :
    (y ≤ I.Bounds.Dx →
      (ExtrudeImageOnce I).At (I.Bounds.Dx + 1) y = I.At (I.Bounds.Dx - 1) (y - 1)) ∧
    (I.Bounds.Dx < y → (ExtrudeImageOnce I).At (I.Bounds.Dx + 1) y = Color.zero) := by
  have hA := ExtrudeImageOnce_At I _ _ (bounds_of_origin I hmin) (by omega) (by omega)
    (I.Bounds.Dx + 1) y
  constructor
  · intro h
    rw [hA, if_pos (by omega), if_pos (by omega)]
  · intro h
    rw [hA, if_pos (by omega), if_neg (by omega), if_neg (by omega), if_neg (by omega),
      if_neg (by omega), if_neg (by omega), if_neg (by omega), if_neg (by omega),
      if_neg (by omega), if_neg (by omega)]

/-- Witness of C17: a 1 x 2 image; row 1 of the right column is filled, row 2 is not. -/
theorem ExtrudeImageOnce_right_column_witness :
    ((1 : Int) ≤ (gradient 1 2).Bounds.Dx →
      (ExtrudeImageOnce (gradient 1 2)).At ((gradient 1 2).Bounds.Dx + 1) 1 =
        (gradient 1 2).At ((gradient 1 2).Bounds.Dx - 1) (1 - 1)) ∧
    ((gradient 1 2).Bounds.Dx < 2 →
      (ExtrudeImageOnce (gradient 1 2)).At ((gradient 1 2).Bounds.Dx + 1) 2 = Color.zero) :=
  ⟨(ExtrudeImageOnce_right_column (gradient 1 2) (by decide) (by decide) (by decide) 1
      (by decide)).1,
    (ExtrudeImageOnce_right_column (gradient 1 2) (by decide) (by decide) (by decide) 2
      (by decide)).2⟩

/-- Counterexample to C18: for the 2 x 1 grey sprite `grayWide`, which answers opaque black
outside its bounds, the bottom-right corner pixel (3, 2) of `ExtrudeImageOnce` is opaque
black, not the zero colour. -/
theorem ExtrudeImageOnce_corner_gray :
    grayWide.Bounds = ⟨⟨0, 0⟩, ⟨2, 1⟩⟩ ∧
    (ExtrudeImageOnce grayWide).At 3 2 = ⟨0, 0, 0, 255⟩ ∧
    (ExtrudeImageOnce grayWide).At 3 2 ≠ Color.zero := by
  decide

/-- C18, amended: for every image `I` with width `w` > height `h ≥ 1` and bounds starting
at (0,0), the bottom-right corner pixel `(w + 1, h + 1)` of `ExtrudeImageOnce I` is the
colour `I` answers for the out-of-bounds read `(w - 1, h)`, whatever `I (w - 1, h - 1)`;
it is the zero colour when `I` answers the zero colour there, as an NRGBA image does. -/
theorem ExtrudeImageOnce_corner_overwritten (I : Image) (hmin : I.Bounds.Min = ⟨0, 0⟩)
    (hh : 1 ≤ I.Bounds.Dy) (hwh : I.Bounds.Dy < I.Bounds.Dx) :
    (ExtrudeImageOnce I).At (I.Bounds.Dx + 1) (I.Bounds.Dy + 1) =
      I.At (I.Bounds.Dx - 1) I.Bounds.Dy ∧
    (I.At (I.Bounds.Dx - 1) I.Bounds.Dy = Color.zero →
      (ExtrudeImageOnce I).At (I.Bounds.Dx + 1) (I.Bounds.Dy + 1) = Color.zero) ∧
    ∀ N : NRGBA, I = N.toImage →
      (ExtrudeImageOnce I).At (I.Bounds.Dx + 1) (I.Bounds.Dy + 1) = Color.zero := by
  have hA : (ExtrudeImageOnce I).At (I.Bounds.Dx + 1) (I.Bounds.Dy + 1) =
      I.At (I.Bounds.Dx - 1) I.Bounds.Dy := by
    rw [ExtrudeImageOnce_At I _ _ (bounds_of_origin I hmin) (by omega) (by omega),
      if_pos (by omega), if_pos (by omega)]
    congr 1
    omega
  refine ⟨hA, fun h => hA.trans h, ?_⟩
  intro N hN
  rw [hA]
  subst hN
  show NRGBA.At N (N.toImage.Bounds.Dx - 1) N.toImage.Bounds.Dy = Color.zero
  unfold NRGBA.At
  rw [if_neg]
  rw [In_iff]
  simp only [NRGBA.toImage, Rectangle.Dy] at hmin ⊢
  have : N.Rect.Min.Y = 0 := by rw [hmin]
  omega

/-- Witness of C18, amended: the 2 x 1 NRGBA image `gradient 2 1`. -/
theorem ExtrudeImageOnce_corner_overwritten_witness :
    (ExtrudeImageOnce (gradient 2 1)).At ((gradient 2 1).Bounds.Dx + 1)
      ((gradient 2 1).Bounds.Dy + 1) =
      (gradient 2 1).At ((gradient 2 1).Bounds.Dx - 1) (gradient 2 1).Bounds.Dy :=
  (ExtrudeImageOnce_corner_overwritten (gradient 2 1) (by decide) (by decide) (by decide)).1

/-- C19: for every list of sprites, every padding and every canvas size, the atlas returned
by `Pack` has the bounds `image.Rect(0, 0, width, height)`, which for `width, height ≥ 0` is
`width` wide and `height` high, and each of its pixels that lies in none of the destination
blocks of the sprites is the zero colour. -/
theorem Pack_outside_blocks (images : List ImageData) (width height extrude : Int) :
    (Pack images width height extrude).1.Bounds = Rect 0 0 width height ∧
    (0 ≤ width → 0 ≤ height →
      (Pack images width height extrude).1.Bounds.Dx = width ∧
      (Pack images width height extrude).1.Bounds.Dy = height) ∧
    ∀ x y : Int,
      (∀ (pre post : List ImageData) (S : ImageData), images = pre ++ S :: post →
        Point.In ⟨x, y⟩
          (destBounds extrude (pre.foldl (packStep extrude) (packInit width height)) S) =
            false) →
      (Pack images width height extrude).1.At x y = Color.zero := by
  have hB : (Pack images width height extrude).1.Bounds = Rect 0 0 width height :=
    foldl_packStep_Rect extrude images (packInit width height)
  refine ⟨hB, fun hw hh => ?_, fun x y h => ?_⟩
  · rw [hB, Rect_of_nonneg width height hw hh]
    simp [Rectangle.Dx, Rectangle.Dy]
  · show NRGBA.At (images.foldl (packStep extrude) (packInit width height)).atlas x y = _
    unfold NRGBA.At
    split
    · rw [foldl_packStep_Pix_outside extrude x y (packInit width height) images h]
      rfl
    · rfl

/-- Witness of C19: the scenario of C1; the atlas is 1024 x 32 and its pixel (100, 5),
right of both blocks, is the zero colour. -/
theorem Pack_outside_blocks_witness :
    (Pack [spriteA, spriteB] 1024 32 1).1.Bounds.Dx = 1024 ∧
    (Pack [spriteA, spriteB] 1024 32 1).1.Bounds.Dy = 32 ∧
    (Pack [spriteA, spriteB] 1024 32 1).1.At 100 5 = Color.zero :=
  ⟨((Pack_outside_blocks [spriteA, spriteB] 1024 32 1).2.1 (by decide) (by decide)).1,
    ((Pack_outside_blocks [spriteA, spriteB] 1024 32 1).2.1 (by decide) (by decide)).2,
    (Pack_outside_blocks [spriteA, spriteB] 1024 32 1).2.2 100 5 (by
      intro pre post S h
      match pre, h with
      | [], h =>
        simp only [List.nil_append, List.cons.injEq] at h
        obtain ⟨rfl, -⟩ := h
        decide
      | [a], h =>
        simp only [List.cons_append, List.nil_append, List.cons.injEq] at h
        obtain ⟨rfl, rfl, -⟩ := h
        decide
      | a :: b :: c, h =>
        have hl := congrArg List.length h
        simp only [List.length_cons, List.length_append, List.length_nil] at hl
        omega)⟩

end Packer
